import Mathlib

/-!
Verification of the Star Chess engine (chess-engine.js) and its AI
(minimax with alpha-beta pruning) against the natural-language design
specification.  The JavaScript source is translated into executable Lean
definitions: the mutable `ChessEngine` object becomes an explicit
`EngineState` record threaded through the operations, JS arrays become
lists, JS numbers used as board coordinates become `Int` (negative
intermediate coordinates occur in attack offsets and are bounds-checked
exactly as the source does), and evaluation scores become extended
rationals (`WithBot (WithTop Rat)`) so that the JavaScript `-Infinity`
and `Infinity` search bounds are `bot` and `top`.
-/

namespace Chess

inductive Color where
  | white
  | black
deriving DecidableEq, Repr

def Color.other : Color → Color
  | .white => .black
  | .black => .white

/-- Piece types.  `jsTrue` is not a chess piece: it models the
JavaScript boolean `true` that the AI passes as the promotion piece
through `move.promotion || 'q'` (for generated promotion moves
`move.promotion` is the boolean `true`), which `makeMove` then stores on
the board as `{type: true, color}`. -/
inductive PieceType where
  | p
  | n
  | b
  | r
  | q
  | k
  | jsTrue
deriving DecidableEq, Repr

structure Piece where
  type : PieceType
  color : Color
deriving DecidableEq, Repr

/-- `gameState` field values: 'playing', 'check', 'checkmate', 'stalemate', 'draw'. -/
inductive GameState where
  | playing
  | check
  | checkmate
  | stalemate
  | draw
deriving DecidableEq, Repr

inductive CastleSide where
  | kingSide
  | queenSide
deriving DecidableEq, Repr

/-- A candidate move as produced by the per-piece generators: the target
square plus the flags the source attaches (`capture`, `promotion`,
`enPassant`, `castling`, `doublePush`). -/
structure CMove where
  row : Int
  col : Int
  capture : Bool := false
  promotion : Bool := false
  enPassant : Bool := false
  castling : Option CastleSide := none
  doublePush : Bool := false
deriving DecidableEq, Repr

/-- The record `makeMove` stores in `moveHistory` (and returns). -/
structure MoveRecord where
  fromRow : Int
  fromCol : Int
  toRow : Int
  toCol : Int
  piece : Piece
  captured : Option Piece := none
  castling : Option CastleSide := none
  enPassant : Bool := false
  promotion : Option PieceType := none
  check : Bool := false
  checkmate : Bool := false
deriving DecidableEq, Repr

/-- An entry of `getAllLegalMoves()`: `{from, to, piece, ...move}`. -/
structure LMove where
  fromRow : Int
  fromCol : Int
  piece : Piece
  move : CMove
deriving DecidableEq, Repr

abbrev Board := List (List (Option Piece))

/-- `castlingRights`: `wk`/`wq`/`bk`/`bq` are
`castlingRights.{white,black}.{kingSide,queenSide}`. -/
structure CRights where
  wk : Bool
  wq : Bool
  bk : Bool
  bq : Bool
deriving DecidableEq, Repr

/-- The `ChessEngine` instance state.  `capturedWhite`/`capturedBlack`
are `capturedPieces.white` / `capturedPieces.black` (pieces captured BY
that color). -/
structure EngineState where
  board : Board
  currentPlayer : Color
  moveHistory : List MoveRecord
  capturedWhite : List Piece
  capturedBlack : List Piece
  castlingRights : CRights
  enPassantTarget : Option (Int × Int)
  halfMoveClock : Int
  fullMoveNumber : Int
  positionHistory : List String
  gameState : GameState
deriving DecidableEq, Repr

/-! ### Board primitives -/

def backRank (c : Color) : List (Option Piece) :=
  [some ⟨.r, c⟩, some ⟨.n, c⟩, some ⟨.b, c⟩, some ⟨.q, c⟩,
   some ⟨.k, c⟩, some ⟨.b, c⟩, some ⟨.n, c⟩, some ⟨.r, c⟩]

def pawnRank (c : Color) : List (Option Piece) :=
  List.replicate 8 (some ⟨.p, c⟩)

def emptyRank : List (Option Piece) := List.replicate 8 none

/-- `createInitialBoard()`: black on rows 0-1, white on rows 6-7. -/
def createInitialBoard : Board :=
  [backRank .black, pawnRank .black, emptyRank, emptyRank,
   emptyRank, emptyRank, pawnRank .white, backRank .white]

/-- `getPiece(row, col)`: bounds-checked lookup, `null` when out of range. -/
def getPiece (b : Board) (row col : Int) : Option Piece :=
  if row < 0 || row > 7 || col < 0 || col > 7 then none
  else ((b.getD row.toNat []).getD col.toNat none)

/-- `setPiece(row, col, piece)`: unguarded write, exactly as the source
(which only ever calls it with in-range coordinates). -/
def setPiece (b : Board) (row col : Int) (piece : Option Piece) : Board :=
  b.set row.toNat ((b.getD row.toNat []).set col.toNat piece)

/-- Row-major square enumeration order used by the source's nested
`for (row) for (col)` loops. -/
def squares : List (Int × Int) :=
  ((List.range 8).map fun r => (List.range 8).map fun c => ((r : Int), (c : Int))).flatten

/-- `findKing(color)`: first king of that color in row-major order. -/
def findKing (b : Board) (color : Color) : Option (Int × Int) :=
  squares.find? fun rc =>
    match getPiece b rc.1 rc.2 with
    | some pc => pc.type == .k && pc.color == color
    | none => false

/-! ### Attack detection -/

def knightOffsets : List (Int × Int) :=
  [(-2, -1), (-2, 1), (-1, -2), (-1, 2), (1, -2), (1, 2), (2, -1), (2, 1)]

/-- The 8 king-neighbour offsets in the order of the source's
`for dr in -1..1, for dc in -1..1, skip (0,0)` loop. -/
def kingDeltas : List (Int × Int) :=
  [(-1, -1), (-1, 0), (-1, 1), (0, -1), (0, 1), (1, -1), (1, 0), (1, 1)]

def rookDirs : List (Int × Int) := [(-1, 0), (1, 0), (0, -1), (0, 1)]

def bishopDirs : List (Int × Int) := [(-1, -1), (-1, 1), (1, -1), (1, 1)]

/-- One sliding-attack ray of `isSquareAttacked`: walk from (r,c) in
direction (dr,dc) until leaving the board or hitting a piece; report
whether that first piece is an attacker of type `t1` or `t2`.  The
source's `while` loop runs at most 8 steps on an 8-wide board, so fuel 8
is exact. -/
def attackRay (b : Board) (attacker : Color) (t1 t2 : PieceType) :
    Nat → Int → Int → Int → Int → Bool
  | 0, _, _, _, _ => false
  | fuel + 1, r, c, dr, dc =>
    if 0 ≤ r ∧ r < 8 ∧ 0 ≤ c ∧ c < 8 then
      match getPiece b r c with
      | some pc => pc.color == attacker && (pc.type == t1 || pc.type == t2)
      | none => attackRay b attacker t1 t2 fuel (r + dr) (c + dc) dr dc
    else false

/-- `isSquareAttacked(row, col, attackerColor)`. -/
def isSquareAttacked (b : Board) (row col : Int) (attacker : Color) : Bool :=
  let pawnDir : Int := if attacker = .white then 1 else -1
  let pawnHit := [(row + pawnDir, col - 1), (row + pawnDir, col + 1)].any fun rc =>
    match getPiece b rc.1 rc.2 with
    | some pc => pc.type == .p && pc.color == attacker
    | none => false
  let knightHit := knightOffsets.any fun d =>
    match getPiece b (row + d.1) (col + d.2) with
    | some pc => pc.type == .n && pc.color == attacker
    | none => false
  let kingHit := kingDeltas.any fun d =>
    match getPiece b (row + d.1) (col + d.2) with
    | some pc => pc.type == .k && pc.color == attacker
    | none => false
  let rookHit := rookDirs.any fun d =>
    attackRay b attacker .r .q 8 (row + d.1) (col + d.2) d.1 d.2
  let bishopHit := bishopDirs.any fun d =>
    attackRay b attacker .b .q 8 (row + d.1) (col + d.2) d.1 d.2
  pawnHit || knightHit || kingHit || rookHit || bishopHit

/-- `isInCheck(color)`: king's square attacked by the opponent; `false`
when there is no king. -/
def isInCheck (b : Board) (color : Color) : Bool :=
  match findKing b color with
  | none => false
  | some rc => isSquareAttacked b rc.1 rc.2 color.other

/-! ### Pseudo-legal move generation -/

/-- `getPawnMoves`: forward push (with double push nested inside the
single-push emptiness test), then the two diagonal captures including
en passant, in the source's push order. -/
def getPawnMoves (b : Board) (ep : Option (Int × Int)) (row col : Int)
    (color : Color) : List CMove :=
  let direction : Int := if color = .white then -1 else 1
  let startRow : Int := if color = .white then 6 else 1
  let promotionRow : Int := if color = .white then 0 else 7
  let newRow := row + direction
  let forward :=
    if 0 ≤ newRow ∧ newRow < 8 ∧ (getPiece b newRow col).isNone then
      (if newRow = promotionRow then
        [{ row := newRow, col := col, promotion := true }]
      else
        [{ row := newRow, col := col }]) ++
      (if row = startRow ∧ (getPiece b (row + 2 * direction) col).isNone then
        [{ row := row + 2 * direction, col := col, doublePush := true }]
      else [])
    else []
  let captureAt (dc : Int) : List CMove :=
    let newCol := col + dc
    if 0 ≤ newCol ∧ newCol < 8 then
      (match getPiece b newRow newCol with
       | some target =>
         if target.color ≠ color then
           if newRow = promotionRow then
             [{ row := newRow, col := newCol, capture := true, promotion := true }]
           else
             [{ row := newRow, col := newCol, capture := true }]
         else []
       | none => []) ++
      (match ep with
       | some t =>
         if t.1 = newRow ∧ t.2 = newCol then
           [{ row := newRow, col := newCol, enPassant := true, capture := true }]
         else []
       | none => [])
    else []
  forward ++ captureAt (-1) ++ captureAt 1

/-- Shared step move pattern of knights and (non-castling) kings:
offset targets inside the board not occupied by an own piece; the
`capture` flag is the JS truthiness of `targetPiece && target enemy`. -/
def offsetMoves (b : Board) (offsets : List (Int × Int)) (row col : Int)
    (color : Color) : List CMove :=
  (offsets.map fun d =>
    let newRow := row + d.1
    let newCol := col + d.2
    if 0 ≤ newRow ∧ newRow < 8 ∧ 0 ≤ newCol ∧ newCol < 8 then
      match getPiece b newRow newCol with
      | none => [{ row := newRow, col := newCol, capture := false : CMove }]
      | some target =>
        if target.color ≠ color then
          [{ row := newRow, col := newCol, capture := true : CMove }]
        else []
    else []).flatten

def getKnightMoves (b : Board) (row col : Int) (color : Color) : List CMove :=
  offsetMoves b knightOffsets row col color

/-- One ray of `getSlidingMoves`: empty squares produce quiet moves,
the first enemy piece a capture, an own piece stops the ray. -/
def slideRay (b : Board) (color : Color) :
    Nat → Int → Int → Int → Int → List CMove
  | 0, _, _, _, _ => []
  | fuel + 1, r, c, dr, dc =>
    if 0 ≤ r ∧ r < 8 ∧ 0 ≤ c ∧ c < 8 then
      match getPiece b r c with
      | none => { row := r, col := c : CMove } ::
          slideRay b color fuel (r + dr) (c + dc) dr dc
      | some target =>
        if target.color ≠ color then [{ row := r, col := c, capture := true }]
        else []
    else []

def getSlidingMoves (b : Board) (row col : Int) (color : Color)
    (dirs : List (Int × Int)) : List CMove :=
  (dirs.map fun d => slideRay b color 8 (row + d.1) (col + d.2) d.1 d.2).flatten

def getBishopMoves (b : Board) (row col : Int) (color : Color) : List CMove :=
  getSlidingMoves b row col color bishopDirs

def getRookMoves (b : Board) (row col : Int) (color : Color) : List CMove :=
  getSlidingMoves b row col color rookDirs

def getQueenMoves (b : Board) (row col : Int) (color : Color) : List CMove :=
  getBishopMoves b row col color ++ getRookMoves b row col color

/-- Castling-rights accessor `castlingRights[color][side]`. -/
def rightOf (cr : CRights) (color : Color) (side : CastleSide) : Bool :=
  match color, side with
  | .white, .kingSide => cr.wk
  | .white, .queenSide => cr.wq
  | .black, .kingSide => cr.bk
  | .black, .queenSide => cr.bq

/-- `getKingMoves`: the 8 step moves, then (only when not currently in
check) the two castling moves guarded by the right, empty in-between
squares and non-attacked transit squares.  The state fields the source
reads are passed explicitly (board and castling rights). -/
def getKingMoves (b : Board) (cr : CRights) (row col : Int) (color : Color) :
    List CMove :=
  let regular := offsetMoves b kingDeltas row col color
  let castle :=
    if isInCheck b color then []
    else
      let baseRow : Int := if color = .white then 7 else 0
      let opp := color.other
      (if rightOf cr color .kingSide ∧
          (getPiece b baseRow 5).isNone ∧
          (getPiece b baseRow 6).isNone ∧
          ¬ isSquareAttacked b baseRow 5 opp ∧
          ¬ isSquareAttacked b baseRow 6 opp then
        [{ row := baseRow, col := 6, castling := some .kingSide }]
      else []) ++
      (if rightOf cr color .queenSide ∧
          (getPiece b baseRow 1).isNone ∧
          (getPiece b baseRow 2).isNone ∧
          (getPiece b baseRow 3).isNone ∧
          ¬ isSquareAttacked b baseRow 2 opp ∧
          ¬ isSquareAttacked b baseRow 3 opp then
        [{ row := baseRow, col := 2, castling := some .queenSide }]
      else [])
  regular ++ castle

/-- `getPseudoLegalMoves(row, col, piece)`: dispatch on the piece type. -/
def getPseudoLegalMoves (b : Board) (ep : Option (Int × Int)) (cr : CRights)
    (row col : Int) (piece : Piece) : List CMove :=
  match piece.type with
  | .p => getPawnMoves b ep row col piece.color
  | .n => getKnightMoves b row col piece.color
  | .b => getBishopMoves b row col piece.color
  | .r => getRookMoves b row col piece.color
  | .q => getQueenMoves b row col piece.color
  | .k => getKingMoves b cr row col piece.color
  -- the source's switch has no case for a `true`-typed piece: no moves
  | .jsTrue => []

/-- `isMoveLegal(fromRow, fromCol, toRow, toCol, piece)`.  The source
performs an in-place probe (apply, test check, restore); the saved
squares are written back verbatim, so the probe's net effect on the
engine is nil and it is modelled by its result: the check test on the
provisional board (including en-passant capture removal). -/
def isMoveLegal (b : Board) (ep : Option (Int × Int))
    (fromRow fromCol toRow toCol : Int) (piece : Piece) : Bool :=
  let b1 := setPiece (setPiece b toRow toCol (some piece)) fromRow fromCol none
  let b2 :=
    match ep with
    | some t =>
      if piece.type = .p ∧ toRow = t.1 ∧ toCol = t.2 then
        setPiece b1 (if piece.color = .white then toRow + 1 else toRow - 1) toCol none
      else b1
    | none => b1
  !(isInCheck b2 piece.color)

/-- The body of `getValidMoves` as a function of the state fields it
reads (board, side to move, en-passant target, castling rights): empty
when the square is empty or holds a piece of the side not to move;
otherwise the pseudo-legal moves filtered by the self-check probe. -/
def validMovesCore (b : Board) (player : Color) (ep : Option (Int × Int))
    (cr : CRights) (row col : Int) : List CMove :=
  match getPiece b row col with
  | none => []
  | some piece =>
    if piece.color ≠ player then []
    else (getPseudoLegalMoves b ep cr row col piece).filter fun m =>
      isMoveLegal b ep row col m.row m.col piece

/-- `getValidMoves(row, col)`. -/
def getValidMoves (s : EngineState) (row col : Int) : List CMove :=
  validMovesCore s.board s.currentPlayer s.enPassantTarget s.castlingRights row col

/-! ### Game-state classification helpers -/

/-- `hasLegalMoves(color)`: some own piece has a non-empty valid-move
list; the source temporarily sets `currentPlayer = color` around each
`getValidMoves` call and restores it, which is exactly `validMovesCore`
queried with `player := color`. -/
def hasLegalMoves (s : EngineState) (color : Color) : Bool :=
  squares.any fun rc =>
    match getPiece s.board rc.1 rc.2 with
    | some pc =>
      pc.color == color &&
        !(validMovesCore s.board color s.enPassantTarget s.castlingRights
          rc.1 rc.2).isEmpty
    | none => false

def isCheckmate (s : EngineState) (color : Color) : Bool :=
  if !isInCheck s.board color then false else !hasLegalMoves s color

def isStalemate (s : EngineState) (color : Color) : Bool :=
  if isInCheck s.board color then false else !hasLegalMoves s color

def colorInitial : Color → String
  | .white => "w"
  | .black => "b"

def colorName : Color → String
  | .white => "white"
  | .black => "black"

def typeChar : PieceType → String
  | .p => "p"
  | .n => "n"
  | .b => "b"
  | .r => "r"
  | .q => "q"
  | .k => "k"
  -- JS `key += piece.color[0] + piece.type` coerces the boolean to "true"
  | .jsTrue => "true"

/-- `getPositionKey()`: 64 two-character square codes, the full current
player name, the held castling-right letters and the en-passant target
coordinates (`row + '' + col`). -/
def getPositionKey (s : EngineState) : String :=
  let boardKey := squares.foldl (fun acc rc =>
    match getPiece s.board rc.1 rc.2 with
    | some pc => acc ++ colorInitial pc.color ++ typeChar pc.type
    | none => acc ++ "--") ""
  boardKey ++ colorName s.currentPlayer ++
    (if s.castlingRights.wk then "K" else "") ++
    (if s.castlingRights.wq then "Q" else "") ++
    (if s.castlingRights.bk then "k" else "") ++
    (if s.castlingRights.bq then "q" else "") ++
    (match s.enPassantTarget with
     | some t => toString t.1 ++ toString t.2
     | none => "")

/-- `isInsufficientMaterial()`: collects the non-king pieces of each
color in row-major order and tests the three drawn material patterns. -/
def isInsufficientMaterial (b : Board) : Bool :=
  let collect (c : Color) : List (PieceType × Int × Int) :=
    squares.filterMap fun rc =>
      match getPiece b rc.1 rc.2 with
      | some pc => if pc.type ≠ .k ∧ pc.color = c then some (pc.type, rc.1, rc.2) else none
      | none => none
  match collect .white, collect .black with
  | [], [] => true
  | [], [(t, _, _)] => t == .b || t == .n
  | [(t, _, _)], [] => t == .b || t == .n
  | [(wt, wr, wc)], [(bt, br, bc)] =>
    wt == .b && bt == .b && ((wr + wc) % 2 == (br + bc) % 2)
  | _, _ => false

/-- `isDraw()`: 50-move rule (`halfMoveClock >= 100`), then threefold
repetition of the current position key in `positionHistory` (the
source's early-`break` counting loop is equivalent to `count >= 3`),
then insufficient material. -/
def isDraw (s : EngineState) : Bool :=
  if s.halfMoveClock ≥ 100 then true
  else
    let currentPosition := getPositionKey s
    if 3 ≤ (s.positionHistory.filter (fun p => p == currentPosition)).length then true
    else isInsufficientMaterial s.board

/-! ### makeMove -/

def clearRight (cr : CRights) (c : Color) (side : CastleSide) : CRights :=
  match c, side with
  | .white, .kingSide => { cr with wk := false }
  | .white, .queenSide => { cr with wq := false }
  | .black, .kingSide => { cr with bk := false }
  | .black, .queenSide => { cr with bq := false }

/-- The castling-rights update block of `makeMove` (source lines
485-499): a king move clears both of its color's rights, a rook move
from file 0/7 clears that side, and a rook captured on file 0/7 clears
the owning color's corresponding right. -/
def updateCastlingRights (cr : CRights) (piece : Piece) (fromCol : Int)
    (captured : Option Piece) (toCol : Int) : CRights :=
  let cr1 :=
    if piece.type = .k then
      clearRight (clearRight cr piece.color .kingSide) piece.color .queenSide
    else cr
  let cr2 :=
    if piece.type = .r then
      let cra := if fromCol = 0 then clearRight cr1 piece.color .queenSide else cr1
      if fromCol = 7 then clearRight cra piece.color .kingSide else cra
    else cr1
  match captured with
  | some cp =>
    if cp.type = .r then
      let crb := if toCol = 0 then clearRight cr2 cp.color .queenSide else cr2
      if toCol = 7 then clearRight crb cp.color .kingSide else crb
    else cr2
  | none => cr2

/-- The terminal-state classification block at the end of `makeMove`,
as a function of the post-move state (side to move already flipped,
position key already appended): checkmate or check when the new side to
move is in check, else stalemate, else the three draw tests, else
playing. -/
def gameStateAfter (s2 : EngineState) : GameState :=
  let opp := s2.currentPlayer
  if isInCheck s2.board opp then
    if isCheckmate s2 opp then .checkmate else .check
  else if isStalemate s2 opp then .stalemate
  else if isDraw s2 then .draw
  else .playing

/-- The success path of `makeMove` (everything after the legality
guard): applies the matched valid move `mv` of `piece` and classifies
the resulting game state. -/
def applyMove (s : EngineState) (piece : Piece) (mv : CMove)
    (fromRow fromCol toRow toCol : Int) (promotionPiece : PieceType) :
    MoveRecord × EngineState :=
      -- capture resolution (en passant removes a pawn on a shifted row)
      let epCapRow : Int := if piece.color = .white then toRow + 1 else toRow - 1
      let capturedPiece : Option Piece :=
        if mv.enPassant then getPiece s.board epCapRow toCol
        else getPiece s.board toRow toCol
      let b1 : Board :=
        if mv.enPassant then setPiece s.board epCapRow toCol none else s.board
      let cwcb : List Piece × List Piece :=
        match capturedPiece, piece.color with
        | some cp, .white => (s.capturedWhite ++ [cp], s.capturedBlack)
        | some cp, .black => (s.capturedWhite, s.capturedBlack ++ [cp])
        | none, _ => (s.capturedWhite, s.capturedBlack)
      -- castling rook relocation
      let baseRow : Int := if piece.color = .white then 7 else 0
      let b2 : Board :=
        match mv.castling with
        | some .kingSide =>
          setPiece (setPiece b1 baseRow 5 (getPiece b1 baseRow 7)) baseRow 7 none
        | some .queenSide =>
          setPiece (setPiece b1 baseRow 3 (getPiece b1 baseRow 0)) baseRow 0 none
        | none => b1
      -- relocate the moving piece (promoted type if promotion applies)
      let movedTo : Option Piece :=
        if mv.promotion then some ⟨promotionPiece, piece.color⟩ else some piece
      let b3 := setPiece (setPiece b2 toRow toCol movedTo) fromRow fromCol none
      let newEp : Option (Int × Int) :=
        if piece.type = .p ∧ (toRow - fromRow).natAbs = 2 then
          some (if piece.color = .white then fromRow - 1 else fromRow + 1, fromCol)
        else none
      let newRights := updateCastlingRights s.castlingRights piece fromCol capturedPiece toCol
      let newClock : Int :=
        if piece.type = .p ∨ capturedPiece.isSome then 0 else s.halfMoveClock + 1
      let newFull : Int :=
        if piece.color = .black then s.fullMoveNumber + 1 else s.fullMoveNumber
      let sMid : EngineState :=
        { s with
          board := b3, currentPlayer := s.currentPlayer.other,
          capturedWhite := cwcb.1, capturedBlack := cwcb.2,
          castlingRights := newRights, enPassantTarget := newEp,
          halfMoveClock := newClock, fullMoveNumber := newFull }
      let sPos : EngineState :=
        { sMid with positionHistory := sMid.positionHistory ++ [getPositionKey sMid] }
      let opp := sPos.currentPlayer
      let inChk := isInCheck sPos.board opp
      -- the source sets `record.check` inside the in-check branch and
      -- `record.checkmate` inside the mate branch; as values that is
      -- `inChk` and `inChk && isCheckmate`
      let record : MoveRecord :=
        { fromRow := fromRow, fromCol := fromCol, toRow := toRow, toCol := toCol,
          piece := piece, captured := capturedPiece, castling := mv.castling,
          enPassant := mv.enPassant,
          promotion := if mv.promotion then some promotionPiece else none,
          check := inChk, checkmate := inChk && isCheckmate sPos opp }
      let final : EngineState :=
        { sPos with
          gameState := gameStateAfter sPos,
          moveHistory := s.moveHistory ++ [record] }
      (record, final)

/-- `makeMove(fromRow, fromCol, toRow, toCol, promotionPiece)`: returns
`null` (and leaves the state untouched) when the from square is empty or
the from/to pair matches no valid move; otherwise applies the move. -/
def makeMove (s : EngineState) (fromRow fromCol toRow toCol : Int)
    (promotionPiece : PieceType) : Option MoveRecord × EngineState :=
  match getPiece s.board fromRow fromCol with
  | none => (none, s)
  | some piece =>
    match (getValidMoves s fromRow fromCol).find?
        (fun m => m.row == toRow && m.col == toCol) with
    | none => (none, s)
    | some mv =>
      let r := applyMove s piece mv fromRow fromCol toRow toCol promotionPiece
      (some r.1, r.2)

/-! ### undoMove -/

/-- `capturedList.splice(findIndex(type match), 1)`: remove the first
captured piece with the given type. -/
def removeFirstOfType : List Piece → PieceType → List Piece
  | [], _ => []
  | pc :: rest, t => if pc.type == t then rest else pc :: removeFirstOfType rest t

/-- `undoMove()`: pops the last move record and reverses the board
mutation; castling rights use the source's simplified history-scan
restoration (king moves only), en passant is recomputed from the
previous move, and the clock fields are not touched. -/
def undoMove (s : EngineState) : Option MoveRecord × EngineState :=
  match s.moveHistory.getLast? with
  | none => (none, s)
  | some lastMove =>
    let hist := s.moveHistory.dropLast
    let posHist := s.positionHistory.dropLast
    -- restore the moved piece (a promotion restores the original pawn)
    let b1 := setPiece s.board lastMove.fromRow lastMove.fromCol (some lastMove.piece)
    let b2 :=
      if lastMove.promotion.isSome then
        setPiece b1 lastMove.fromRow lastMove.fromCol (some ⟨.p, lastMove.piece.color⟩)
      else b1
    -- restore the captured piece (en passant: on the displaced square)
    let b3 :=
      if lastMove.enPassant then
        let capturedRow : Int :=
          if lastMove.piece.color = .white then lastMove.toRow + 1 else lastMove.toRow - 1
        setPiece (setPiece b2 lastMove.toRow lastMove.toCol none)
          capturedRow lastMove.toCol lastMove.captured
      else setPiece b2 lastMove.toRow lastMove.toCol lastMove.captured
    -- castling rook restoration
    let b4 :=
      match lastMove.castling with
      | some .kingSide =>
        let baseRow : Int := if lastMove.piece.color = .white then 7 else 0
        setPiece (setPiece b3 baseRow 7 (getPiece b3 baseRow 5)) baseRow 5 none
      | some .queenSide =>
        let baseRow : Int := if lastMove.piece.color = .white then 7 else 0
        setPiece (setPiece b3 baseRow 0 (getPiece b3 baseRow 3)) baseRow 3 none
      | none => b3
    let cwcb : List Piece × List Piece :=
      match lastMove.captured, lastMove.piece.color with
      | some cp, .white => (removeFirstOfType s.capturedWhite cp.type, s.capturedBlack)
      | some cp, .black => (s.capturedWhite, removeFirstOfType s.capturedBlack cp.type)
      | none, _ => (s.capturedWhite, s.capturedBlack)
    let newPlayer := s.currentPlayer.other
    -- the source's "simplified" rights restoration: only for a king
    -- move with no remaining king move of the same color in history
    let newRights :=
      if lastMove.piece.type = .k ∧
          hist.all (fun m => !(m.piece.type == .k && m.piece.color == lastMove.piece.color)) then
        match lastMove.piece.color with
        | .white => { s.castlingRights with wk := true, wq := true }
        | .black => { s.castlingRights with bk := true, bq := true }
      else s.castlingRights
    let gs := if isInCheck b4 newPlayer then GameState.check else GameState.playing
    let newEp : Option (Int × Int) :=
      match hist.getLast? with
      | some prevMove =>
        if prevMove.piece.type = .p ∧ (prevMove.toRow - prevMove.fromRow).natAbs = 2 then
          some (if prevMove.piece.color = .white then prevMove.fromRow - 1
                else prevMove.fromRow + 1, prevMove.fromCol)
        else none
      | none => none
    (some lastMove,
     { s with
       board := b4, currentPlayer := newPlayer, moveHistory := hist,
       positionHistory := posHist, capturedWhite := cwcb.1, capturedBlack := cwcb.2,
       castlingRights := newRights, enPassantTarget := newEp, gameState := gs })

/-- `getAllLegalMoves()`: all valid moves of the side to move, in
row-major square order, each tagged with its source square and piece. -/
def getAllLegalMoves (s : EngineState) : List LMove :=
  (squares.map fun rc =>
    match getPiece s.board rc.1 rc.2 with
    | some pc =>
      if pc.color = s.currentPlayer then
        (getValidMoves s rc.1 rc.2).map fun m =>
          { fromRow := rc.1, fromCol := rc.2, piece := pc, move := m }
      else []
    | none => []).flatten

/-- `clone()`: copies board and scalar state, resets the histories and
captured-piece lists. -/
def cloneEngine (s : EngineState) : EngineState :=
  { s with
    moveHistory := [], positionHistory := [],
    capturedWhite := [], capturedBlack := [] }

/-- The state `reset()` establishes. -/
def initialState : EngineState :=
  { board := createInitialBoard, currentPlayer := .white, moveHistory := [],
    capturedWhite := [], capturedBlack := [],
    castlingRights := ⟨true, true, true, true⟩,
    enPassantTarget := none, halfMoveClock := 0, fullMoveNumber := 1,
    positionHistory := [], gameState := .playing }

/-! ### FEN codec -/

def isWsChar (c : Char) : Bool :=
  c == ' ' || c == '\t' || c == '\n' || c == '\r'

/-- Whitespace trim on the character list (the core `String.trim` is
defined by well-founded recursion on byte positions, which the kernel
cannot evaluate, so the equivalent structural version is used). -/
def trimChars (l : List Char) : List Char :=
  ((l.dropWhile isWsChar).reverse.dropWhile isWsChar).reverse

/-- Separator splitting on the character list, keeping empty pieces,
with the same semantics as `String.split` / JS `split`. -/
def splitCharsAux (p : Char → Bool) : List Char → List Char → List (List Char)
  | [], acc => [acc.reverse]
  | c :: rest, acc =>
    if p c then acc.reverse :: splitCharsAux p rest []
    else splitCharsAux p rest (c :: acc)

def splitChars (p : Char → Bool) (l : List Char) : List (List Char) :=
  splitCharsAux p l []

/-- `fen.trim().split(/\s+/)`: whitespace-run splitting of the trimmed
string (each claim-relevant input is space-separated; on a fully blank
input JS yields `[""]` and this yields `[]`, which take the same
too-few-fields branch). -/
def splitWs (str : String) : List String :=
  ((splitChars isWsChar (trimChars str.data)).filter fun t => !t.isEmpty).map
    fun cs => String.mk cs

/-- `parseInt` restricted to the base-10 integer strings the FEN fields
carry: an optional sign followed by leading digits; `none` models `NaN`. -/
def jsParseInt (str : String) : Option Int :=
  let chars := trimChars str.data
  let core : List Char → Option Nat := fun ds =>
    let digits := ds.takeWhile (·.isDigit)
    if digits.isEmpty then none
    else some (digits.foldl (fun acc c => acc * 10 + (c.toNat - '0'.toNat)) 0)
  match chars with
  | '-' :: rest => (core rest).map fun v => -(v : Int)
  | '+' :: rest => (core rest).map fun v => (v : Int)
  | _ => (core chars).map fun v => (v : Int)

def pieceOfChar (c : Char) : Option Piece :=
  if c == 'r' then some ⟨.r, .black⟩
  else if c == 'n' then some ⟨.n, .black⟩
  else if c == 'b' then some ⟨.b, .black⟩
  else if c == 'q' then some ⟨.q, .black⟩
  else if c == 'k' then some ⟨.k, .black⟩
  else if c == 'p' then some ⟨.p, .black⟩
  else if c == 'R' then some ⟨.r, .white⟩
  else if c == 'N' then some ⟨.n, .white⟩
  else if c == 'B' then some ⟨.b, .white⟩
  else if c == 'Q' then some ⟨.q, .white⟩
  else if c == 'K' then some ⟨.k, .white⟩
  else if c == 'P' then some ⟨.p, .white⟩
  else none

/-- One row of the FEN board-parsing loop: digits 1-8 skip squares,
mapped characters place pieces (failing when the row already holds 8),
anything else fails; at the end the row must have exactly 8 squares.
Returns the (possibly partially written) board either way, since the
source mutates `this.board` in place and returns on the first error. -/
def loadFenRow (b : Board) (rowIdx : Int) : List Char → Int → Bool × Board
  | [], col => (col == 8, b)
  | ch :: rest, col =>
    if '1' ≤ ch ∧ ch ≤ '8' then
      loadFenRow b rowIdx rest (col + ((ch.toNat : Int) - ('0'.toNat : Int)))
    else
      match pieceOfChar ch with
      | some pc =>
        if col ≥ 8 then (false, b)
        else loadFenRow (setPiece b rowIdx col (some pc)) rowIdx rest (col + 1)
      | none => (false, b)

def loadFenRows (b : Board) : List (List Char) → Int → Bool × Board
  | [], _ => (true, b)
  | row :: rest, rowIdx =>
    match loadFenRow b rowIdx row 0 with
    | (true, b2) => loadFenRows b2 rest (rowIdx + 1)
    | (false, b2) => (false, b2)

def emptyBoard : Board := List.replicate 8 emptyRank

/-- `loadFromFEN(fen)`: returns `false` on fewer than 4 fields (before
touching any state), on a row count other than 8, on an over-full row,
on an unknown board character or on a short row (these four clear and
partially rewrite the board first, exactly as the source's in-place
parse does); on success installs the parsed position, resets histories
and sets `gameState` to `check` or `playing`.  The numeric fields use
`parseInt`; a non-numeric counter (JS `NaN`) is not modelled and
defaults like a missing field. -/
def loadFromFEN (s : EngineState) (fen : String) : Bool × EngineState :=
  let parts := splitWs fen
  if parts.length < 4 then (false, s)
  else
    match parts with
    | position :: activeColor :: castling :: enPassant :: rest =>
      let rows := splitChars (· == '/') position.data
      if rows.length ≠ 8 then (false, { s with board := emptyBoard })
      else
        match loadFenRows emptyBoard rows 0 with
        | (false, b) => (false, { s with board := b })
        | (true, b) =>
          let player : Color := if activeColor == "w" then .white else .black
          let baseRights : CRights := ⟨false, false, false, false⟩
          let rights : CRights :=
            if castling == "-" then baseRights
            else castling.toList.foldl (fun cr ch =>
              if ch == 'K' then { cr with wk := true }
              else if ch == 'Q' then { cr with wq := true }
              else if ch == 'k' then { cr with bk := true }
              else if ch == 'q' then { cr with bq := true }
              else cr) baseRights
          let ep : Option (Int × Int) :=
            if enPassant == "-" then none
            else
              match enPassant.toList with
              | c0 :: c1 :: _ =>
                let file : Int := (c0.toNat : Int) - ('a'.toNat : Int)
                match jsParseInt (String.mk [c1]) with
                | some d =>
                  let rank : Int := 8 - d
                  if 0 ≤ file ∧ file < 8 ∧ 0 ≤ rank ∧ rank < 8 then
                    some (rank, file)
                  else none
                | none => none
              | _ => none
          let halfmove : Int :=
            match rest.get? 0 with
            | some h => (jsParseInt h).getD 0
            | none => 0
          let fullmove : Int :=
            match rest.get? 1 with
            | some f => (jsParseInt f).getD 1
            | none => 1
          let s1 : EngineState :=
            { s with
              board := b, currentPlayer := player, castlingRights := rights,
              enPassantTarget := ep, halfMoveClock := halfmove,
              fullMoveNumber := fullmove, moveHistory := [],
              capturedWhite := [], capturedBlack := [],
              positionHistory := [], gameState := .playing }
          if isInCheck s1.board s1.currentPlayer then
            (true, { s1 with gameState := .check })
          else (true, s1)
    | _ => (false, s)

def fenPieceChar (pc : Piece) : String :=
  match pc.color, pc.type with
  -- JS `fen += pieceMap[...]` with an unmapped `true_<color>` key
  -- appends the string coercion of `undefined`
  | _, .jsTrue => "undefined"
  | .black, .r => "r"
  | .black, .n => "n"
  | .black, .b => "b"
  | .black, .q => "q"
  | .black, .k => "k"
  | .black, .p => "p"
  | .white, .r => "R"
  | .white, .n => "N"
  | .white, .b => "B"
  | .white, .q => "Q"
  | .white, .k => "K"
  | .white, .p => "P"

/-- One board row of `toFEN()`: pieces interleaved with run-length
counts of empty squares. -/
def fenRowString (row : List (Option Piece)) : String :=
  let step := row.foldl (fun acc sq =>
    match sq with
    | some pc =>
      ((if acc.2 > 0 then acc.1 ++ toString acc.2 else acc.1) ++ fenPieceChar pc, 0)
    | none => (acc.1, acc.2 + 1)) (("", 0) : String × Nat)
  if step.2 > 0 then step.1 ++ toString step.2 else step.1

/-- `toFEN()`: board, active color, castling letters (or `-`),
en-passant square (or `-`), half-move clock and full-move number. -/
def toFEN (s : EngineState) : String :=
  let positionPart := String.intercalate "/" (s.board.map fenRowString)
  let castlingStr :=
    (if s.castlingRights.wk then "K" else "") ++
    (if s.castlingRights.wq then "Q" else "") ++
    (if s.castlingRights.bk then "k" else "") ++
    (if s.castlingRights.bq then "q" else "")
  let epStr :=
    match s.enPassantTarget with
    | some t => String.mk [Char.ofNat ('a'.toNat + t.2.toNat)] ++ toString (8 - t.1)
    | none => "-"
  positionPart ++ " " ++ (if s.currentPlayer = .white then "w" else "b") ++ " " ++
    (if castlingStr == "" then "-" else castlingStr) ++ " " ++ epStr ++ " " ++
    toString s.halfMoveClock ++ " " ++ toString s.fullMoveNumber

/-! ### The AI (ChessAI)

Scores are extended rationals: `Score` = `WithBot (WithTop Rat)`, with
`bot`/`top` playing the role of the JavaScript `-Infinity`/`Infinity`
search bounds; every static evaluation is finite (the piece values,
tables and bonuses are all exact integers, so `Rat` is exact). -/

abbrev Score := WithBot (WithTop ℚ)

def Score.num (x : ℚ) : Score := ((x : WithTop ℚ) : Score)

/-- JS addition of a finite number to a score: the infinities absorb. -/
def Score.addQ (s : Score) (x : ℚ) : Score :=
  WithBot.map (WithTop.map (· + x)) s

inductive Difficulty where
  | easy
  | medium
  | hard
deriving DecidableEq, Repr

/-- The AI configuration `setDifficulty` installs: search depth and
random factor.  (The source's `switch` default coincides with
`medium`; `Difficulty` is closed so it is unreachable.) -/
structure AIConfig where
  difficulty : Difficulty
  depth : Nat
  randomFactor : ℚ
deriving DecidableEq, Repr

def setDifficulty : Difficulty → AIConfig
  | .easy => ⟨.easy, 2, 3/10⟩
  | .medium => ⟨.medium, 3, 1/20⟩
  | .hard => ⟨.hard, 4, 0⟩

/-- `pieceValues[type]`.  For a `jsTrue` piece the source yields
`undefined`, which is NaN in every arithmetic use (move-order scores,
material sums) — NaN is not representable over the rationals, so 0
stands in; the search theorems below therefore describe the program
only on positions whose explored tree creates no such piece. -/
def pieceValues : PieceType → ℚ
  | .p => 100
  | .n => 320
  | .b => 330
  | .r => 500
  | .q => 900
  | .k => 20000
  | .jsTrue => 0

def pstP : List (List ℚ) :=
  [[0, 0, 0, 0, 0, 0, 0, 0],
   [50, 50, 50, 50, 50, 50, 50, 50],
   [10, 10, 20, 30, 30, 20, 10, 10],
   [5, 5, 10, 25, 25, 10, 5, 5],
   [0, 0, 0, 20, 20, 0, 0, 0],
   [5, -5, -10, 0, 0, -10, -5, 5],
   [5, 10, 10, -20, -20, 10, 10, 5],
   [0, 0, 0, 0, 0, 0, 0, 0]]

def pstN : List (List ℚ) :=
  [[-50, -40, -30, -30, -30, -30, -40, -50],
   [-40, -20, 0, 0, 0, 0, -20, -40],
   [-30, 0, 10, 15, 15, 10, 0, -30],
   [-30, 5, 15, 20, 20, 15, 5, -30],
   [-30, 0, 15, 20, 20, 15, 0, -30],
   [-30, 5, 10, 15, 15, 10, 5, -30],
   [-40, -20, 0, 5, 5, 0, -20, -40],
   [-50, -40, -30, -30, -30, -30, -40, -50]]

def pstB : List (List ℚ) :=
  [[-20, -10, -10, -10, -10, -10, -10, -20],
   [-10, 0, 0, 0, 0, 0, 0, -10],
   [-10, 0, 5, 10, 10, 5, 0, -10],
   [-10, 5, 5, 10, 10, 5, 5, -10],
   [-10, 0, 10, 10, 10, 10, 0, -10],
   [-10, 10, 10, 10, 10, 10, 10, -10],
   [-10, 5, 0, 0, 0, 0, 5, -10],
   [-20, -10, -10, -10, -10, -10, -10, -20]]

def pstR : List (List ℚ) :=
  [[0, 0, 0, 0, 0, 0, 0, 0],
   [5, 10, 10, 10, 10, 10, 10, 5],
   [-5, 0, 0, 0, 0, 0, 0, -5],
   [-5, 0, 0, 0, 0, 0, 0, -5],
   [-5, 0, 0, 0, 0, 0, 0, -5],
   [-5, 0, 0, 0, 0, 0, 0, -5],
   [-5, 0, 0, 0, 0, 0, 0, -5],
   [0, 0, 0, 5, 5, 0, 0, 0]]

def pstQ : List (List ℚ) :=
  [[-20, -10, -10, -5, -5, -10, -10, -20],
   [-10, 0, 0, 0, 0, 0, 0, -10],
   [-10, 0, 5, 5, 5, 5, 0, -10],
   [-5, 0, 5, 5, 5, 5, 0, -5],
   [0, 0, 5, 5, 5, 5, 0, -5],
   [-10, 5, 5, 5, 5, 5, 0, -10],
   [-10, 0, 5, 0, 0, 0, 0, -10],
   [-20, -10, -10, -5, -5, -10, -10, -20]]

def pstKingMid : List (List ℚ) :=
  [[-30, -40, -40, -50, -50, -40, -40, -30],
   [-30, -40, -40, -50, -50, -40, -40, -30],
   [-30, -40, -40, -50, -50, -40, -40, -30],
   [-30, -40, -40, -50, -50, -40, -40, -30],
   [-20, -30, -30, -40, -40, -30, -30, -20],
   [-10, -20, -20, -20, -20, -20, -20, -10],
   [20, 20, 0, 0, 0, 0, 20, 20],
   [20, 30, 10, 0, 0, 10, 30, 20]]

def pstKingEnd : List (List ℚ) :=
  [[-50, -40, -30, -20, -20, -30, -40, -50],
   [-30, -20, -10, 0, 0, -10, -20, -30],
   [-30, -10, 20, 30, 30, 20, -10, -30],
   [-30, -10, 30, 40, 40, 30, -10, -30],
   [-30, -10, 30, 40, 40, 30, -10, -30],
   [-30, -10, 20, 30, 30, 20, -10, -30],
   [-30, -30, 0, 0, 0, 0, -30, -30],
   [-50, -30, -30, -30, -30, -30, -30, -50]]

/-- `this.pst[type]`.  For a `jsTrue` piece the source yields
`undefined`, and `getPositionValue`'s `table[tableRow][col]` then throws
a TypeError; a thrown exception has no value in the total model, so the
empty table (lookup default 0) stands in, with the same caveat as
`pieceValues`. -/
def pstOf : PieceType → List (List ℚ)
  | .p => pstP
  | .n => pstN
  | .b => pstB
  | .r => pstR
  | .q => pstQ
  | .k => pstKingMid
  | .jsTrue => []

def tableAt (t : List (List ℚ)) (row col : Int) : ℚ :=
  (t.getD row.toNat []).getD col.toNat 0

def countAllPieces (b : Board) : Nat :=
  (squares.filter fun rc => (getPiece b rc.1 rc.2).isSome).length

/-- `getPositionValue`: piece-square-table lookup, king table chosen by
the total (kings included) piece count, row mirrored for black. -/
def getPositionValue (b : Board) (pc : Piece) (row col : Int) : ℚ :=
  let table :=
    if pc.type = .k then
      if countAllPieces b ≤ 10 then pstKingEnd else pstKingMid
    else pstOf pc.type
  let tableRow := if pc.color = .white then row else 7 - row
  tableAt table tableRow col

/-- `evaluateKingSafety(color)`: center-file penalty, castled-corner
bonus, per-pawn shield bonus. -/
def evaluateKingSafety (b : Board) (color : Color) : ℚ :=
  match findKing b color with
  | none => 0
  | some rc =>
    let s0 : ℚ := if 2 ≤ rc.2 ∧ rc.2 ≤ 5 then -30 else 0
    let s1 : ℚ := s0 +
      (if color = .white then
        (if rc.1 = 7 ∧ (rc.2 ≤ 2 ∨ rc.2 ≥ 6) then 40 else 0)
      else
        (if rc.1 = 0 ∧ (rc.2 ≤ 2 ∨ rc.2 ≥ 6) then 40 else 0))
    let shieldRow : Int := if color = .white then rc.1 - 1 else rc.1 + 1
    s1 + (([-1, 0, 1] : List Int).map fun dc =>
      let col := rc.2 + dc
      if 0 ≤ col ∧ col < 8 ∧ 0 ≤ shieldRow ∧ shieldRow < 8 then
        match getPiece b shieldRow col with
        | some pc => if pc.type = .p ∧ pc.color = color then (15 : ℚ) else 0
        | none => 0
      else 0).sum

/-- `evaluate(engine)`: returns the score AND the engine state after the
call.  The source mutates `engine.currentPlayer` to `white` and then
`black` to count mobility, then writes the original player back; the
state is threaded explicitly so that net effect is a theorem, not an
assumption. -/
def evaluate (s : EngineState) : ℚ × EngineState :=
  if s.gameState = .checkmate then
    ((if s.currentPlayer = .white then -100000 else 100000), s)
  else if s.gameState = .stalemate ∨ s.gameState = .draw then (0, s)
  else
    let mat : ℚ × Nat × Nat := squares.foldl (fun acc rc =>
      match getPiece s.board rc.1 rc.2 with
      | none => acc
      | some pc =>
        let v := pieceValues pc.type + getPositionValue s.board pc rc.1 rc.2
        match pc.color with
        | .white => (acc.1 + v, acc.2.1 + (if pc.type ≠ .k then 1 else 0), acc.2.2)
        | .black => (acc.1 - v, acc.2.1, acc.2.2 + (if pc.type ≠ .k then 1 else 0)))
      ((0 : ℚ), (0 : Nat), (0 : Nat))
    let originalPlayer := s.currentPlayer
    let sW : EngineState := { s with currentPlayer := .white }
    let whiteMoves := (getAllLegalMoves sW).length
    let sB : EngineState := { sW with currentPlayer := .black }
    let blackMoves := (getAllLegalMoves sB).length
    let sR : EngineState := { sB with currentPlayer := originalPlayer }
    let score1 := mat.1 + ((whiteMoves : ℚ) - (blackMoves : ℚ)) * 5
    let score2 := score1 + (if isInCheck sR.board .black then (50 : ℚ) else 0) -
      (if isInCheck sR.board .white then (50 : ℚ) else 0)
    let totalPieces := mat.2.1 + mat.2.2
    let score3 :=
      if totalPieces > 10 then
        score2 + evaluateKingSafety sR.board .white - evaluateKingSafety sR.board .black
      else score2
    (score3, sR)

def evalScore (s : EngineState) : ℚ := (evaluate s).1

/-- The move-ordering heuristic score: capture gain
(`capturedValue - movingValue/10`), +800 for promotions, +10 for pawn or
knight moves into the central 4x4. -/
def moveOrderScore (s : EngineState) (m : LMove) : ℚ :=
  let capScore : ℚ :=
    if m.move.capture then
      match getPiece s.board m.move.row m.move.col with
      | some cp => pieceValues cp.type - pieceValues m.piece.type / 10
      | none => 0
    else 0
  let promScore : ℚ := if m.move.promotion then 800 else 0
  let centerScore : ℚ :=
    if (m.piece.type = .p ∨ m.piece.type = .n) ∧
        2 ≤ m.move.col ∧ m.move.col ≤ 5 ∧ 2 ≤ m.move.row ∧ m.move.row ≤ 5 then 10
    else 0
  capScore + promScore + centerScore

def insertMoveDesc (key : LMove → ℚ) (x : LMove) : List LMove → List LMove
  | [] => [x]
  | y :: ys => if key x < key y then y :: insertMoveDesc key x ys else x :: y :: ys

/-- `orderMoves(moves)`: sort descending by the heuristic score.  The
source uses `Array.prototype.sort` with comparator `scoreB - scoreA`;
the relative order of equal-score moves is engine-defined there, and is
modelled as the stable descending insertion sort. -/
def orderMoves (s : EngineState) (moves : List LMove) : List LMove :=
  moves.foldr (insertMoveDesc (moveOrderScore s)) []

/-- The child position the search recurses into: a clone with the move
applied, the promotion piece being `move.promotion || 'q'` — the
boolean `true` (`PieceType.jsTrue`) for a promotion move, `'q'`
otherwise. -/
def searchChild (s : EngineState) (m : LMove) : EngineState :=
  (makeMove (cloneEngine s) m.fromRow m.fromCol m.move.row m.move.col
    (if m.move.promotion then .jsTrue else .q)).2

/-- The maximizing inner loop of `minimax`: fold over the ordered moves
carrying `maxEval` and the tightened `alpha`, breaking on `beta <=
alpha`. -/
def abLoopMax (f : EngineState → Score → Score → Score) (s : EngineState)
    (beta : Score) : List LMove → Score → Score → Score
  | [], _, maxEval => maxEval
  | m :: ms, alpha, maxEval =>
    let e := f (searchChild s m) alpha beta
    let maxEval2 := max maxEval e
    let alpha2 := max alpha e
    if beta ≤ alpha2 then maxEval2 else abLoopMax f s beta ms alpha2 maxEval2

/-- The minimizing inner loop of `minimax`. -/
def abLoopMin (f : EngineState → Score → Score → Score) (s : EngineState)
    (alpha : Score) : List LMove → Score → Score → Score
  | [], _, minEval => minEval
  | m :: ms, beta, minEval =>
    let e := f (searchChild s m) alpha beta
    let minEval2 := min minEval e
    let beta2 := min beta e
    if beta2 ≤ alpha then minEval2 else abLoopMin f s alpha ms beta2 minEval2

/-- `minimax(engine, depth, alpha, beta, isMaximizing)`.  Returns
`evaluate` at depth 0 or a terminal `gameState`; when no legal moves
exist, the depth-adjusted mate score (using the configured `this.depth`)
or 0; otherwise the alpha-beta fold over the ordered moves. -/
def minimax (ai : AIConfig) : Nat → EngineState → Score → Score → Bool → Score
  | 0, s, _, _, _ => Score.num (evalScore s)
  | d + 1, s, alpha, beta, isMax =>
    if s.gameState = .checkmate ∨ s.gameState = .stalemate ∨ s.gameState = .draw then
      Score.num (evalScore s)
    else
      let moves := getAllLegalMoves s
      if moves.isEmpty then
        if isInCheck s.board s.currentPlayer then
          if isMax then
            Score.num (((-100000 + ((ai.depth : Int) - ((d : Int) + 1)) : Int) : ℚ))
          else
            Score.num (((100000 - ((ai.depth : Int) - ((d : Int) + 1)) : Int) : ℚ))
        else Score.num 0
      else
        let ordered := orderMoves s moves
        if isMax then
          abLoopMax (fun c a bt => minimax ai d c a bt false) s beta ordered alpha ⊥
        else
          abLoopMin (fun c a bt => minimax ai d c a bt true) s alpha ordered beta ⊤

/-- Brute-force unpruned minimax at the same depth, over the same move
enumeration and the same children, following the specification's
description of the reference search: no alpha-beta window, the plain
max/min fold over all child values. -/
def minimaxSpec (ai : AIConfig) : Nat → EngineState → Bool → Score
  | 0, s, _ => Score.num (evalScore s)
  | d + 1, s, isMax =>
    if s.gameState = .checkmate ∨ s.gameState = .stalemate ∨ s.gameState = .draw then
      Score.num (evalScore s)
    else
      let moves := getAllLegalMoves s
      if moves.isEmpty then
        if isInCheck s.board s.currentPlayer then
          if isMax then
            Score.num (((-100000 + ((ai.depth : Int) - ((d : Int) + 1)) : Int) : ℚ))
          else
            Score.num (((100000 - ((ai.depth : Int) - ((d : Int) + 1)) : Int) : ℚ))
        else Score.num 0
      else
        let ordered := orderMoves s moves
        if isMax then
          (ordered.map fun m => minimaxSpec ai d (searchChild s m) false).foldl max ⊥
        else
          (ordered.map fun m => minimaxSpec ai d (searchChild s m) true).foldl min ⊤

/-- `getBestMove(engine)`.  `rnd` is the stream of `Math.random()`
results in [0,1): index 0 is the easy-mode coin flip, index 1 the
easy-mode uniform pick, indices from 2 the per-root-move jitter draws
(consulted only when `randomFactor > 0`). -/
def getBestMove (ai : AIConfig) (s : EngineState) (rnd : Nat → ℚ) : Option LMove :=
  let moves := getAllLegalMoves s
  if ai.difficulty = .easy ∧ rnd 0 < ai.randomFactor ∧ moves.length > 0 then
    moves.get? (Int.floor (rnd 1 * (moves.length : ℚ))).toNat
  else
    let isMax := s.currentPlayer = .white
    let ordered := orderMoves s moves
    let result : Option LMove × Score × Nat := ordered.foldl (fun acc m =>
      let value := minimax ai (ai.depth - 1) (searchChild s m) ⊥ ⊤ (!isMax)
      let jitter : ℚ := if 0 < ai.randomFactor then (rnd acc.2.2 - 1/2) * 20 else 0
      let adjusted := Score.addQ value jitter
      let better := if isMax then acc.2.1 < adjusted else adjusted < acc.2.1
      if better then (some m, adjusted, acc.2.2 + 1)
      else (acc.1, acc.2.1, acc.2.2 + 1))
      (none, (if isMax then (⊥ : Score) else ⊤), 2)
    result.1

/-- The root search value `getBestMove` tracks for difficulty `hard`
(zero jitter): the best over the ordered root moves of the full-window
alpha-beta value of each child, one ply shallower. -/
def rootValueAB (ai : AIConfig) (s : EngineState) : Score :=
  let isMax := s.currentPlayer = .white
  let ordered := orderMoves s (getAllLegalMoves s)
  ordered.foldl (fun acc m =>
    let value := minimax ai (ai.depth - 1) (searchChild s m) ⊥ ⊤ (!isMax)
    if isMax then max acc value else min acc value)
    (if isMax then (⊥ : Score) else ⊤)

/-- The brute-force root value: the same fold with the unpruned minimax. -/
def rootValueSpec (ai : AIConfig) (s : EngineState) : Score :=
  let isMax := s.currentPlayer = .white
  let ordered := orderMoves s (getAllLegalMoves s)
  ordered.foldl (fun acc m =>
    let value := minimaxSpec ai (ai.depth - 1) (searchChild s m) (!isMax)
    if isMax then max acc value else min acc value)
    (if isMax then (⊥ : Score) else ⊤)

/-! ### Concrete positions used by the theorems -/

/-- The specification's checkmate-detection FEN (white to move, mated
by the queen on h4). -/
def foolsMateFen : String :=
  "rnb1kbnr/pppp1ppp/8/4p3/6Pq/5P2/PPPPP2P/RNBQKBNR w KQkq - 1 3"

def foolsMateLoaded : EngineState := (loadFromFEN initialState foolsMateFen).2

/-- The same mating position one ply earlier, black to move (Qd8-h4
delivers mate). -/
def preMateFen : String :=
  "rnbqkbnr/pppp1ppp/8/4p3/6P1/5P2/PPPPP2P/RNBQKBNR b KQkq - 0 3"

/-- The checkmate state as `makeMove` produces and classifies it. -/
def foolsMateDelivered : EngineState :=
  (makeMove (loadFromFEN initialState preMateFen).2 0 3 4 7 .q).2

/-- A position whose h1 rook is free to move (the h2 pawn has advanced
to h4); all four castling rights are still held. -/
def rookFreeFen : String :=
  "rnbqkbnr/pppppppp/8/8/7P/8/PPPPPPP1/RNBQKBNR w KQkq - 0 1"

def rookFreeLoaded : EngineState := (loadFromFEN initialState rookFreeFen).2

/-- An endgame with `halfMoveClock = 120` where Ra1-a8 gives a check
the defender can answer. -/
def clockCheckFen : String := "4k3/8/8/8/8/8/8/R3K3 w - - 120 1"

def clockCheckLoaded : EngineState := (loadFromFEN initialState clockCheckFen).2

def clockCheckAfter : EngineState := (makeMove clockCheckLoaded 7 0 0 0 .q).2

/-- The game 1.h4 a6 2.Rh3 b6 3.e3 c6 4.Ke2 played from the start:
move 2 (the rook move) clears white's king-side right, move 7 (the king
move) finds it already cleared. -/
def seqS1 : EngineState := (makeMove initialState 6 7 4 7 .q).2

def seqS2 : EngineState := (makeMove seqS1 1 0 2 0 .q).2

def seqS3 : EngineState := (makeMove seqS2 7 7 5 7 .q).2

def seqS4 : EngineState := (makeMove seqS3 1 1 2 1 .q).2

def seqS5 : EngineState := (makeMove seqS4 6 4 5 4 .q).2

def seqS6 : EngineState := (makeMove seqS5 1 2 2 2 .q).2

def seqS7 : EngineState := (makeMove seqS6 7 4 6 4 .q).2

/-! ### C10: `evaluate` has no net effect on the engine state -/

/-- C10: `ChessAI.evaluate` leaves the engine exactly as it found it:
although it reassigns `currentPlayer` to white and then black for the
mobility terms, the returned state (the engine after the call) equals
the input state in every field. -/
theorem evaluate_preserves_state (s : EngineState) : (evaluate s).2 = s := by
  unfold evaluate
  split
  · rfl
  · split
    · rfl
    · rfl

/-! ### C9: `undoMove` leaves the move counters unchanged -/

/-- C9: for any position with non-empty `moveHistory`, `undoMove`
leaves `halfMoveClock` and `fullMoveNumber` exactly as they were
(it never writes either field), even though the undone move had
updated them. -/
theorem undoMove_preserves_clocks (s : EngineState) (_h : s.moveHistory ≠ []) :
    (undoMove s).2.halfMoveClock = s.halfMoveClock ∧
    (undoMove s).2.fullMoveNumber = s.fullMoveNumber := by
  unfold undoMove
  cases hl : s.moveHistory.getLast? with
  | none => exact ⟨rfl, rfl⟩
  | some lm => exact ⟨rfl, rfl⟩

/-- Witness for C9 at the knight move Ng1-f3 from the start (which had
incremented the half-move clock). -/
theorem undoMove_preserves_clocks_witness :
    (makeMove initialState 7 6 5 5 .q).2.moveHistory ≠ [] ∧
    ((undoMove (makeMove initialState 7 6 5 5 .q).2).2.halfMoveClock =
        (makeMove initialState 7 6 5 5 .q).2.halfMoveClock ∧
      (undoMove (makeMove initialState 7 6 5 5 .q).2).2.fullMoveNumber =
        (makeMove initialState 7 6 5 5 .q).2.fullMoveNumber) :=
  ⟨by decide, undoMove_preserves_clocks _ (by decide)⟩

/-! ### C6: an illegal `makeMove` returns null and changes nothing -/

/-- C6: whenever the requested from/to pair matches no member of the
valid-move set of the from square (in particular when that square is
empty or holds an opponent piece, making the set empty), `makeMove`
returns `null` and the state after the call is the state before it. -/
theorem makeMove_illegal_is_noop (s : EngineState) (fR fC tR tC : Int)
    (promo : PieceType)
    (h : ∀ m ∈ getValidMoves s fR fC, ¬(m.row = tR ∧ m.col = tC)) :
    makeMove s fR fC tR tC promo = (none, s) := by
  unfold makeMove
  cases hp : getPiece s.board fR fC with
  | none => rfl
  | some piece =>
    have hf : (getValidMoves s fR fC).find?
        (fun m => m.row == tR && m.col == tC) = none := by
      rw [List.find?_eq_none]
      intro m hm
      have := h m hm
      simp only [Bool.and_eq_true, beq_iff_eq, not_and] at this ⊢
      intro h1 h2
      exact this h1 h2
    rw [hf]

/-- Witness for C6: e2-e5 is not a legal pawn move from the start. -/
theorem makeMove_illegal_is_noop_witness :
    (∀ m ∈ getValidMoves initialState 6 4, ¬(m.row = 3 ∧ m.col = 4)) ∧
    makeMove initialState 6 4 3 4 .q = (none, initialState) :=
  ⟨by decide, makeMove_illegal_is_noop initialState 6 4 3 4 .q (by decide)⟩

/-! ### C8: castling-right transitions -/

/-- A `clearRight` update never turns a flag on. -/
theorem rightOf_clearRight (cr : CRights) (c0 : Color) (sd0 : CastleSide)
    (c : Color) (sd : CastleSide)
    (h : rightOf (clearRight cr c0 sd0) c sd = true) : rightOf cr c sd = true := by
  cases c0 <;> cases sd0 <;> cases c <;> cases sd <;> simp_all [clearRight, rightOf]

/-- `x` holds at most the rights `y` holds. -/
def RLe (x y : CRights) : Prop :=
  ∀ c sd, rightOf x c sd = true → rightOf y c sd = true

theorem RLe_refl (x : CRights) : RLe x x := fun _ _ h => h

theorem RLe_trans {x y z : CRights} (h1 : RLe x y) (h2 : RLe y z) : RLe x z :=
  fun c sd h => h2 c sd (h1 c sd h)

theorem clearRight_rle (cr : CRights) (c0 : Color) (sd0 : CastleSide) :
    RLe (clearRight cr c0 sd0) cr :=
  fun c sd h => rightOf_clearRight cr c0 sd0 c sd h

theorem ite_rle {cond : Prop} [Decidable cond] {x y z : CRights}
    (h1 : RLe x z) (h2 : RLe y z) : RLe (if cond then x else y) z := by
  split
  · exact h1
  · exact h2

/-- The castling-rights block of `makeMove` only ever clears flags. -/
theorem updateCastlingRights_mono (cr : CRights) (piece : Piece) (fromCol : Int)
    (captured : Option Piece) (toCol : Int) (c : Color) (sd : CastleSide)
    (h : rightOf (updateCastlingRights cr piece fromCol captured toCol) c sd = true) :
    rightOf cr c sd = true := by
  have hrle : RLe (updateCastlingRights cr piece fromCol captured toCol) cr := by
    simp only [updateCastlingRights]
    cases captured with
    | none =>
      repeat'
        first
          | exact RLe_refl _
          | apply ite_rle
          | apply RLe_trans (clearRight_rle _ _ _)
    | some cp =>
      repeat'
        first
          | exact RLe_refl _
          | apply ite_rle
          | apply RLe_trans (clearRight_rle _ _ _)
  exact hrle c sd h

theorem makeMove_rights_mono (s : EngineState) (fR fC tR tC : Int)
    (promo : PieceType) (c : Color) (sd : CastleSide) :
    rightOf (makeMove s fR fC tR tC promo).2.castlingRights c sd = true →
    rightOf s.castlingRights c sd = true := by
  unfold makeMove
  cases hp : getPiece s.board fR fC with
  | none => exact id
  | some piece =>
    cases hf : (getValidMoves s fR fC).find? (fun m => m.row == tR && m.col == tC) with
    | none => exact id
    | some mv => exact fun h => updateCastlingRights_mono _ _ _ _ _ _ _ h

/-- The castling rights `undoMove` installs, as a function of the
popped record and the remaining history. -/
theorem undoMove_rights_eq (s : EngineState) (lm : MoveRecord)
    (hl : s.moveHistory.getLast? = some lm) :
    (undoMove s).2.castlingRights =
      (if lm.piece.type = PieceType.k ∧
          s.moveHistory.dropLast.all
            (fun m => !(m.piece.type == PieceType.k && m.piece.color == lm.piece.color)) then
        match lm.piece.color with
        | .white => { s.castlingRights with wk := true, wq := true }
        | .black => { s.castlingRights with bk := true, bq := true }
      else s.castlingRights) := by
  unfold undoMove
  rw [hl]

theorem undoMove_rights_revival (s : EngineState) (lm : MoveRecord)
    (c : Color) (sd : CastleSide)
    (hl : s.moveHistory.getLast? = some lm)
    (h0 : rightOf s.castlingRights c sd = false)
    (h1 : rightOf (undoMove s).2.castlingRights c sd = true) :
    lm.piece.type = PieceType.k ∧ lm.piece.color = c ∧
      s.moveHistory.dropLast.all
        (fun m => !(m.piece.type == PieceType.k && m.piece.color == lm.piece.color)) = true := by
  rw [undoMove_rights_eq s lm hl] at h1
  by_cases hP : lm.piece.type = PieceType.k ∧
      s.moveHistory.dropLast.all
        (fun m => !(m.piece.type == PieceType.k && m.piece.color == lm.piece.color))
  · rw [if_pos hP] at h1
    refine ⟨hP.1, ?_, hP.2⟩
    revert h1
    cases hcol : lm.piece.color <;> cases c <;> cases sd <;>
      intro h1 <;> simp_all [rightOf]
  · rw [if_neg hP] at h1
    rw [h0] at h1
    exact absurd h1 (by simp)

/-- C8 (amended): `makeMove` is monotone true-to-false on every
castling flag, but `undoMove` can set a flag from false to true in a
wider situation than the claim allows: exactly when the undone move is
a KING move of that flag's color with no other king move of that color
remaining in history — the undo then turns BOTH of that color's flags
on, including a flag that had been cleared earlier by a rook move (and
a flag cleared by a rook move is never restored by undoing that rook
move). -/
theorem castlingRights_monotone_transitions :
    (∀ (s : EngineState) (fR fC tR tC : Int) (promo : PieceType)
      (c : Color) (sd : CastleSide),
      rightOf (makeMove s fR fC tR tC promo).2.castlingRights c sd = true →
      rightOf s.castlingRights c sd = true) ∧
    (∀ (s : EngineState) (lm : MoveRecord) (c : Color) (sd : CastleSide),
      s.moveHistory.getLast? = some lm →
      rightOf s.castlingRights c sd = false →
      rightOf (undoMove s).2.castlingRights c sd = true →
      lm.piece.type = PieceType.k ∧ lm.piece.color = c ∧
        s.moveHistory.dropLast.all
          (fun m => !(m.piece.type == PieceType.k && m.piece.color == lm.piece.color)) = true) :=
  ⟨makeMove_rights_mono, undoMove_rights_revival⟩

/-- The move record of 4.Ke1-e2 in the 1.h4 a6 2.Rh3 b6 3.e3 c6 4.Ke2
game. -/
def seqKingRec : MoveRecord :=
  { fromRow := 7, fromCol := 4, toRow := 6, toCol := 4,
    piece := ⟨.k, .white⟩, captured := none, castling := none,
    enPassant := false, promotion := none, check := false, checkmate := false }

/-- Witness for C8: both parts applied to the played game — the first
move keeps the white king-side right, and undoing 4.Ke2 (which turned
the already-cleared king-side flag on) satisfies the king-move
condition. -/
theorem castlingRights_monotone_transitions_witness :
    rightOf initialState.castlingRights .white .kingSide = true ∧
    (seqKingRec.piece.type = PieceType.k ∧ seqKingRec.piece.color = .white ∧
      seqS7.moveHistory.dropLast.all
        (fun m => !(m.piece.type == PieceType.k && m.piece.color == seqKingRec.piece.color)) = true) :=
  ⟨castlingRights_monotone_transitions.1 initialState 6 7 4 7 .q .white .kingSide (by decide),
   castlingRights_monotone_transitions.2 seqS7 seqKingRec .white .kingSide
     (by decide) (by decide) (by decide)⟩

/-- C8 counterexample: in the played game the white king-side right is
cleared by 2.Rh3; after 4.Ke2 (which does not change that flag — it is
already false before and after), a single `undoMove` sets it back to
true, although the undone move is not the move that cleared it. -/
theorem undo_revives_rook_cleared_right :
    seqS6.castlingRights.wk = false ∧
    (makeMove seqS6 7 4 6 4 .q).1.isSome = true ∧
    seqS7.castlingRights.wk = false ∧
    (undoMove seqS7).2.castlingRights.wk = true := by
  decide

/-! ### C4: terminal-state classification priority after `makeMove` -/

/-- A successful `makeMove` stores exactly the classification
`gameStateAfter` re-derives from the resulting state. -/
theorem makeMove_gameState_eq (s : EngineState) (fR fC tR tC : Int)
    (promo : PieceType) :
    (makeMove s fR fC tR tC promo).1.isSome = true →
    (makeMove s fR fC tR tC promo).2.gameState =
      gameStateAfter (makeMove s fR fC tR tC promo).2 := by
  unfold makeMove
  cases hp : getPiece s.board fR fC with
  | none => intro h; simp at h
  | some piece =>
    cases hf : (getValidMoves s fR fC).find? (fun m => m.row == tR && m.col == tC) with
    | none => intro h; simp at h
    | some mv => intro _; rfl

/-- The actual priority order of the classification: checkmate, then
check (BEFORE any draw test), then stalemate, then the draws, then
playing. -/
theorem gameStateAfter_priority (s2 : EngineState) :
    (isInCheck s2.board s2.currentPlayer = true →
      (hasLegalMoves s2 s2.currentPlayer = true → gameStateAfter s2 = .check) ∧
      (hasLegalMoves s2 s2.currentPlayer = false → gameStateAfter s2 = .checkmate)) ∧
    (isInCheck s2.board s2.currentPlayer = false →
      (hasLegalMoves s2 s2.currentPlayer = false → gameStateAfter s2 = .stalemate) ∧
      (hasLegalMoves s2 s2.currentPlayer = true →
        (isDraw s2 = true → gameStateAfter s2 = .draw) ∧
        (isDraw s2 = false → gameStateAfter s2 = .playing))) := by
  refine ⟨fun hc => ⟨fun hm => ?_, fun hm => ?_⟩,
    fun hc => ⟨fun hm => ?_, fun hm => ⟨fun hd => ?_, fun hd => ?_⟩⟩⟩ <;>
    simp_all [gameStateAfter, isCheckmate, isStalemate]

/-- C4 (amended): after every successful `makeMove` the stored
`gameState` is the classification of the new state, whose priority
order is: checkmate (in check, no legal move), else CHECK whenever the
new side to move is in check and has a legal move — before and
regardless of the half-move-clock, repetition and material draw tests —
else stalemate, else the three draw tests (clock, repetition,
insufficient material, in that order inside `isDraw`), else playing. -/
theorem makeMove_classification_priority :
    (∀ (s : EngineState) (fR fC tR tC : Int) (promo : PieceType),
      (makeMove s fR fC tR tC promo).1.isSome = true →
      (makeMove s fR fC tR tC promo).2.gameState =
        gameStateAfter (makeMove s fR fC tR tC promo).2) ∧
    (∀ s2 : EngineState,
      (isInCheck s2.board s2.currentPlayer = true →
        (hasLegalMoves s2 s2.currentPlayer = true → gameStateAfter s2 = .check) ∧
        (hasLegalMoves s2 s2.currentPlayer = false → gameStateAfter s2 = .checkmate)) ∧
      (isInCheck s2.board s2.currentPlayer = false →
        (hasLegalMoves s2 s2.currentPlayer = false → gameStateAfter s2 = .stalemate) ∧
        (hasLegalMoves s2 s2.currentPlayer = true →
          (isDraw s2 = true → gameStateAfter s2 = .draw) ∧
          (isDraw s2 = false → gameStateAfter s2 = .playing)))) :=
  ⟨makeMove_gameState_eq, gameStateAfter_priority⟩

/-- Witness for C4 at the clock-120 rook check Ra1-a8+. -/
theorem makeMove_classification_priority_witness :
    ((makeMove clockCheckLoaded 7 0 0 0 .q).1.isSome = true ∧
      (makeMove clockCheckLoaded 7 0 0 0 .q).2.gameState =
        gameStateAfter (makeMove clockCheckLoaded 7 0 0 0 .q).2) ∧
    gameStateAfter clockCheckAfter = .check :=
  ⟨⟨by decide, makeMove_classification_priority.1 clockCheckLoaded 7 0 0 0 .q (by decide)⟩,
   ((makeMove_classification_priority.2 clockCheckAfter).1 (by decide)).1 (by decide)⟩

/-- C4 counterexample: after Ra1-a8+ from the clock-120 position the
new side to move is in check WITH legal moves while the half-move clock
is at 121 (≥ 100); the claim requires `draw`, but the code classifies
`check`. -/
theorem check_overrides_draw_counterexample :
    (makeMove clockCheckLoaded 7 0 0 0 .q).1.isSome = true ∧
    isInCheck clockCheckAfter.board clockCheckAfter.currentPlayer = true ∧
    hasLegalMoves clockCheckAfter clockCheckAfter.currentPlayer = true ∧
    100 ≤ clockCheckAfter.halfMoveClock ∧
    clockCheckAfter.gameState = GameState.check ∧
    clockCheckAfter.gameState ≠ GameState.draw := by
  decide

/-! ### C5: terminal scores in the search are not depth-adjusted -/

/-- At depth 0 or at a terminal `gameState`, `minimax` returns the raw
`evaluate` score, with no depth adjustment. -/
theorem minimax_terminal_aux (ai : AIConfig) (d : Nat) (s : EngineState)
    (alpha beta : Score) (isMax : Bool)
    (h : s.gameState = .checkmate ∨ s.gameState = .stalemate ∨ s.gameState = .draw) :
    minimax ai d s alpha beta isMax = Score.num (evalScore s) := by
  cases d with
  | zero => rfl
  | succ d =>
    unfold minimax
    rw [if_pos h]

/-- C5 (amended): the recursive search returns the plain
`evaluate(position)` at depth 0 and at every terminal `gameState` —
with NO depth-sensitive adjustment, so two checkmates at different
depths of the search tree receive the same ±100000 score.  The
depth-adjusted mate branch exists but fires only when no legal move
exists while `gameState` is not terminal, which positions produced by
`makeMove` never satisfy; a mate position freshly loaded from FEN
(classified only `check`) does reach it, e.g. with value
-100000 + (4 - 3) = -99999 at depth 3 of a depth-4 search. -/
theorem minimax_terminal_unadjusted :
    (∀ (ai : AIConfig) (d : Nat) (s : EngineState) (alpha beta : Score) (isMax : Bool),
      s.gameState = .checkmate ∨ s.gameState = .stalemate ∨ s.gameState = .draw →
      minimax ai d s alpha beta isMax = Score.num (evalScore s)) ∧
    evalScore foolsMateDelivered = -100000 ∧
    minimax (setDifficulty .hard) 3 foolsMateLoaded ⊥ ⊤ true =
      Score.num ((-99999 : Int) : ℚ) :=
  ⟨minimax_terminal_aux, by decide, by decide⟩

/-- Witness for C5 at the played-out fool's mate state. -/
theorem minimax_terminal_unadjusted_witness :
    (foolsMateDelivered.gameState = .checkmate ∨
      foolsMateDelivered.gameState = .stalemate ∨
      foolsMateDelivered.gameState = .draw) ∧
    minimax (setDifficulty .hard) 3 foolsMateDelivered ⊥ ⊤ true =
      Score.num (evalScore foolsMateDelivered) :=
  ⟨Or.inl (by decide),
   minimax_terminal_unadjusted.1 (setDifficulty .hard) 3 foolsMateDelivered ⊥ ⊤ true
     (Or.inl (by decide))⟩

/-- C5 counterexample: a checkmate reached by `makeMove` scores exactly
the same at search depth 3 and at search depth 1 — the score is not
strictly depth-sensitive. -/
theorem mate_score_depth_insensitive :
    foolsMateDelivered.gameState = GameState.checkmate ∧
    minimax (setDifficulty .hard) 3 foolsMateDelivered ⊥ ⊤ true =
      minimax (setDifficulty .hard) 1 foolsMateDelivered ⊥ ⊤ true := by
  have h : foolsMateDelivered.gameState = GameState.checkmate := by decide
  exact ⟨h, by
    rw [minimax_terminal_aux _ _ _ _ _ _ (Or.inl h),
      minimax_terminal_aux _ _ _ _ _ _ (Or.inl h)]⟩

/-! ### C7: hard-mode determinism; alpha-beta equals unpruned minimax

The pruning-correctness argument is the classical fail-soft property: a
call with window `(alpha, beta)` returns the exact minimax value when
that value lies strictly inside the window, and otherwise a bound lying
between the value and the violated window edge. -/

/-- Fail-soft relation between the true value `v` and the alpha-beta
result `r` for the window `(alpha, beta)`. -/
def Sandwich (v r alpha beta : Score) : Prop :=
  (v ≤ alpha → v ≤ r ∧ r ≤ alpha) ∧
  (beta ≤ v → beta ≤ r ∧ r ≤ v) ∧
  (alpha < v → v < beta → r = v)

theorem sandwich_self (v alpha beta : Score) : Sandwich v v alpha beta :=
  ⟨fun h => ⟨le_refl v, h⟩, fun h => ⟨h, le_refl v⟩, fun _ _ => rfl⟩

theorem sandwich_eq_of_full {v r : Score} (h : Sandwich v r ⊥ ⊤) : r = v := by
  rcases h with ⟨hlow, hhigh, hmid⟩
  rcases lt_or_le (⊥ : Score) v with hb | hb
  · rcases lt_or_le v (⊤ : Score) with ht | ht
    · exact hmid hb ht
    · obtain ⟨h1, h2⟩ := hhigh ht
      exact le_antisymm h2 (le_top.trans h1)
  · obtain ⟨h1, h2⟩ := hlow hb
    exact le_antisymm (h2.trans bot_le) h1

/-- The running maximum the unpruned maximizing fold computes. -/
def foldMaxStep (g : LMove → Score) (a : Score) (ms : List LMove) : Score :=
  ms.foldl (fun x m => max x (g m)) a

/-- The running minimum the unpruned minimizing fold computes. -/
def foldMinStep (g : LMove → Score) (a : Score) (ms : List LMove) : Score :=
  ms.foldl (fun x m => min x (g m)) a

theorem foldMaxStep_absorb (g : LMove → Score) :
    ∀ (ms : List LMove) (a b : Score),
      foldMaxStep g (max a b) ms = max a (foldMaxStep g b ms)
  | [], _, _ => rfl
  | m :: ms, a, b => by
    show foldMaxStep g (max (max a b) (g m)) ms =
      max a (foldMaxStep g (max b (g m)) ms)
    rw [max_assoc, foldMaxStep_absorb g ms a (max b (g m))]

theorem foldMinStep_absorb (g : LMove → Score) :
    ∀ (ms : List LMove) (a b : Score),
      foldMinStep g (min a b) ms = min a (foldMinStep g b ms)
  | [], _, _ => rfl
  | m :: ms, a, b => by
    show foldMinStep g (min (min a b) (g m)) ms =
      min a (foldMinStep g (min b (g m)) ms)
    rw [min_assoc, foldMinStep_absorb g ms a (min b (g m))]

theorem le_foldMaxStep (g : LMove → Score) :
    ∀ (ms : List LMove) (a : Score), a ≤ foldMaxStep g a ms
  | [], a => le_refl a
  | m :: ms, a => le_trans (le_max_left a (g m)) (le_foldMaxStep g ms (max a (g m)))

theorem foldMinStep_le (g : LMove → Score) :
    ∀ (ms : List LMove) (a : Score), foldMinStep g a ms ≤ a
  | [], a => le_refl a
  | m :: ms, a => le_trans (foldMinStep_le g ms (min a (g m))) (min_le_left a (g m))

/-- Fail-soft correctness of the maximizing alpha-beta loop, by
induction along the move list, assuming it for every child call. -/
theorem abLoopMax_sandwich (f : EngineState → Score → Score → Score)
    (g : EngineState → Score) (s : EngineState) (beta : Score)
    (hf : ∀ c alpha, alpha < beta → Sandwich (g c) (f c alpha beta) alpha beta)
    (ms : List LMove) :
    ∀ (alpha mx : Score), alpha < beta → mx ≤ alpha →
      Sandwich (foldMaxStep (fun m => g (searchChild s m)) mx ms)
        (abLoopMax f s beta ms alpha mx) alpha beta := by
  induction ms with
  | nil =>
    intro alpha mx hab _
    exact sandwich_self mx alpha beta
  | cons m ms ih =>
    intro alpha mx hab hmx
    have hS := hf (searchChild s m) alpha hab
    show Sandwich
      (foldMaxStep (fun m => g (searchChild s m))
        (max mx (g (searchChild s m))) ms)
      (if beta ≤ max alpha (f (searchChild s m) alpha beta) then
        max mx (f (searchChild s m) alpha beta)
      else
        abLoopMax f s beta ms (max alpha (f (searchChild s m) alpha beta))
          (max mx (f (searchChild s m) alpha beta)))
      alpha beta
    set v := g (searchChild s m) with hv
    set e := f (searchChild s m) alpha beta with he
    have hW : foldMaxStep (fun m => g (searchChild s m)) (max mx v) ms =
        max v (foldMaxStep (fun m => g (searchChild s m)) mx ms) := by
      rw [max_comm mx v, foldMaxStep_absorb]
    have hW2 : foldMaxStep (fun m => g (searchChild s m)) (max mx e) ms =
        max e (foldMaxStep (fun m => g (searchChild s m)) mx ms) := by
      rw [max_comm mx e, foldMaxStep_absorb]
    set F := foldMaxStep (fun m => g (searchChild s m)) mx ms with hF
    rcases le_or_lt v alpha with hva | hva
    · -- child fails low: e is a bound in [v, alpha]
      obtain ⟨hve, hea⟩ := hS.1 hva
      rw [max_eq_left hea, if_neg (not_le_of_lt hab)]
      have IH := ih alpha (max mx e) hab (max_le hmx hea)
      rw [hW2] at IH
      rw [hW]
      refine ⟨fun h => ?_, fun h => ?_, fun h1 h2 => ?_⟩
      · have hFa : F ≤ alpha := le_trans (le_max_right v F) h
        obtain ⟨g1, g2⟩ := IH.1 (max_le hea hFa)
        exact ⟨le_trans (max_le_max hve (le_refl F)) g1, g2⟩
      · have hFb : beta ≤ F := by
          rcases le_max_iff.mp h with h' | h'
          · exact absurd h' (not_le_of_lt (lt_of_le_of_lt hva hab))
          · exact h'
        have hWF : max v F = F :=
          max_eq_right (le_trans hva (le_trans hab.le hFb))
        have hW2F : max e F = F :=
          max_eq_right (le_trans hea (le_trans hab.le hFb))
        obtain ⟨g1, g2⟩ := IH.2.1 (by rw [hW2F]; exact hFb)
        rw [hWF]
        rw [hW2F] at g2
        exact ⟨g1, g2⟩
      · have hvF : max v F = F := by
          rcases max_cases v F with ⟨hm, _⟩ | ⟨hm, _⟩
          · rw [hm] at h1
            exact absurd h1 (not_lt_of_le hva)
          · exact hm
        rw [hvF] at h1 h2 ⊢
        have heF : max e F = F := max_eq_right (le_of_lt (lt_of_le_of_lt hea h1))
        have hr := IH.2.2 (by rw [heF]; exact h1) (by rw [heF]; exact h2)
        rw [heF] at hr
        exact hr
    · rcases lt_or_le v beta with hvb | hvb
      · -- window-interior child: e is exact
        have hev : e = v := hS.2.2 hva hvb
        rw [hev, max_eq_right hva.le, if_neg (not_le_of_lt hvb)]
        have hmx2 : max mx v ≤ v := max_le (le_trans hmx hva.le) (le_refl v)
        have IH := ih v (max mx v) hvb hmx2
        rw [hW] at IH ⊢
        have hvW : v ≤ max v F := le_max_left v F
        refine ⟨fun h => ?_, fun h => ?_, fun h1 h2 => ?_⟩
        · exact absurd (lt_of_lt_of_le hva (le_trans hvW h)) (lt_irrefl alpha)
        · exact IH.2.1 h
        · rcases lt_or_le v (max v F) with hlt | hle
          · exact IH.2.2 hlt h2
          · have hEq : max v F = v := le_antisymm hle hvW
            obtain ⟨g1, g2⟩ := IH.1 (le_of_eq hEq)
            rw [hEq] at g1
            rw [hEq]
            exact le_antisymm g2 g1
      · -- child fails high: the loop cuts off
        obtain ⟨hbe, hev⟩ := hS.2.1 hvb
        have hcut : beta ≤ max alpha e := le_trans hbe (le_max_right alpha e)
        rw [if_pos hcut]
        have hmxe : max mx e = e :=
          max_eq_right (le_trans hmx (le_trans hab.le hbe))
        rw [hmxe, hW]
        have hvW : v ≤ max v F := le_max_left v F
        have hbW : beta ≤ max v F := le_trans hvb hvW
        refine ⟨fun h => ?_, fun h => ?_, fun h1 h2 => ?_⟩
        · exact absurd (lt_of_lt_of_le hab (le_trans hbW h)) (lt_irrefl alpha)
        · exact ⟨hbe, le_trans hev hvW⟩
        · exact absurd (lt_of_le_of_lt hbW h2) (lt_irrefl beta)

/-- Fail-soft correctness of the minimizing alpha-beta loop. -/
theorem abLoopMin_sandwich (f : EngineState → Score → Score → Score)
    (g : EngineState → Score) (s : EngineState) (alpha : Score)
    (hf : ∀ c beta, alpha < beta → Sandwich (g c) (f c alpha beta) alpha beta)
    (ms : List LMove) :
    ∀ (beta mv : Score), alpha < beta → beta ≤ mv →
      Sandwich (foldMinStep (fun m => g (searchChild s m)) mv ms)
        (abLoopMin f s alpha ms beta mv) alpha beta := by
  induction ms with
  | nil =>
    intro beta mv hab _
    exact sandwich_self mv alpha beta
  | cons m ms ih =>
    intro beta mv hab hmv
    have hS := hf (searchChild s m) beta hab
    show Sandwich
      (foldMinStep (fun m => g (searchChild s m))
        (min mv (g (searchChild s m))) ms)
      (if min beta (f (searchChild s m) alpha beta) ≤ alpha then
        min mv (f (searchChild s m) alpha beta)
      else
        abLoopMin f s alpha ms (min beta (f (searchChild s m) alpha beta))
          (min mv (f (searchChild s m) alpha beta)))
      alpha beta
    set v := g (searchChild s m) with hv
    set e := f (searchChild s m) alpha beta with he
    have hW : foldMinStep (fun m => g (searchChild s m)) (min mv v) ms =
        min v (foldMinStep (fun m => g (searchChild s m)) mv ms) := by
      rw [min_comm mv v, foldMinStep_absorb]
    have hW2 : foldMinStep (fun m => g (searchChild s m)) (min mv e) ms =
        min e (foldMinStep (fun m => g (searchChild s m)) mv ms) := by
      rw [min_comm mv e, foldMinStep_absorb]
    set F := foldMinStep (fun m => g (searchChild s m)) mv ms with hF
    rcases le_or_lt beta v with hbv | hbv
    · -- child fails high: e is a bound in [beta, v]
      obtain ⟨hbe, hev⟩ := hS.2.1 hbv
      rw [min_eq_left hbe, if_neg (not_le_of_lt hab)]
      have IH := ih beta (min mv e) hab (le_min hmv hbe)
      rw [hW2] at IH
      rw [hW]
      refine ⟨fun h => ?_, fun h => ?_, fun h1 h2 => ?_⟩
      · have hFa : F ≤ alpha := by
          rcases min_le_iff.mp h with h' | h'
          · exact absurd h' (not_le_of_lt (lt_of_lt_of_le hab hbv))
          · exact h'
        have hvF : min v F = F :=
          min_eq_right (le_trans hFa (le_trans hab.le hbv))
        have heF : min e F = F :=
          min_eq_right (le_trans hFa (le_trans hab.le hbe))
        obtain ⟨g1, g2⟩ := IH.1 (by rw [heF]; exact hFa)
        rw [hvF]
        rw [heF] at g1
        exact ⟨g1, g2⟩
      · have hFb : beta ≤ F := le_trans h (min_le_right v F)
        obtain ⟨g1, g2⟩ := IH.2.1 (le_min hbe hFb)
        exact ⟨g1, le_trans g2 (min_le_min hev (le_refl F))⟩
      · have hvF : min v F = F := by
          rcases min_cases v F with ⟨hm, _⟩ | ⟨hm, _⟩
          · rw [hm] at h2
            exact absurd h2 (not_lt_of_le hbv)
          · exact hm
        rw [hvF] at h1 h2 ⊢
        have heF : min e F = F := min_eq_right (le_of_lt (lt_of_lt_of_le h2 hbe))
        have hr := IH.2.2 (by rw [heF]; exact h1) (by rw [heF]; exact h2)
        rw [heF] at hr
        exact hr
    · rcases lt_or_le alpha v with hav | hav
      · -- window-interior child: e is exact
        have hev : e = v := hS.2.2 hav hbv
        rw [hev, min_eq_right hbv.le, if_neg (not_le_of_lt hav)]
        have hmv2 : v ≤ min mv v := le_min (le_trans hbv.le hmv) (le_refl v)
        have IH := ih v (min mv v) hav hmv2
        rw [hW] at IH ⊢
        have hWv : min v F ≤ v := min_le_left v F
        refine ⟨fun h => ?_, fun h => ?_, fun h1 h2 => ?_⟩
        · exact IH.1 h
        · exact absurd (lt_of_le_of_lt (le_trans h hWv) hbv) (lt_irrefl beta)
        · rcases lt_or_le (min v F) v with hlt | hle
          · exact IH.2.2 h1 hlt
          · have hEq : min v F = v := le_antisymm hWv hle
            obtain ⟨g1, g2⟩ := IH.2.1 (le_of_eq hEq.symm)
            rw [hEq] at g2
            rw [hEq]
            exact le_antisymm g2 g1
      · -- child fails low: the loop cuts off
        obtain ⟨hve, hea⟩ := hS.1 hav
        have hcut : min beta e ≤ alpha := le_trans (min_le_right beta e) hea
        rw [if_pos hcut]
        have hmve : min mv e = e :=
          min_eq_right (le_trans hea (le_trans hab.le hmv))
        rw [hmve, hW]
        have hWv : min v F ≤ v := min_le_left v F
        have hWa : min v F ≤ alpha := le_trans hWv hav
        refine ⟨fun h => ?_, fun h => ?_, fun h1 h2 => ?_⟩
        · exact ⟨le_trans hWv hve, hea⟩
        · exact absurd (lt_of_le_of_lt (le_trans h hWa) hab) (lt_irrefl beta)
        · exact absurd (lt_of_lt_of_le h1 hWa) (lt_irrefl alpha)

/-- The Knuth-Moore fail-soft theorem for the engine's `minimax`,
relative to the unpruned reference `minimaxSpec`, by induction on the
depth. -/
theorem minimax_sandwich (ai : AIConfig) :
    ∀ (d : Nat) (s : EngineState) (alpha beta : Score) (isMax : Bool),
      alpha < beta →
      Sandwich (minimaxSpec ai d s isMax) (minimax ai d s alpha beta isMax)
        alpha beta := by
  intro d
  induction d with
  | zero =>
    intro s alpha beta isMax _
    exact sandwich_self _ _ _
  | succ d ih =>
    intro s alpha beta isMax hab
    rw [minimax, minimaxSpec]
    by_cases ht : s.gameState = GameState.checkmate ∨
        s.gameState = GameState.stalemate ∨ s.gameState = GameState.draw
    · rw [if_pos ht, if_pos ht]
      exact sandwich_self _ _ _
    · rw [if_neg ht, if_neg ht]
      by_cases hm : (getAllLegalMoves s).isEmpty = true
      · rw [if_pos hm, if_pos hm]
        exact sandwich_self _ _ _
      · rw [if_neg hm, if_neg hm]
        cases isMax with
        | true =>
          rw [if_pos rfl, if_pos rfl]
          rw [List.foldl_map]
          exact abLoopMax_sandwich (fun c a bt => minimax ai d c a bt false)
            (fun c => minimaxSpec ai d c false) s beta
            (fun c a h => ih c a beta false h)
            (orderMoves s (getAllLegalMoves s)) alpha ⊥ hab bot_le
        | false =>
          rw [if_neg (by simp), if_neg (by simp)]
          rw [List.foldl_map]
          exact abLoopMin_sandwich (fun c a bt => minimax ai d c a bt true)
            (fun c => minimaxSpec ai d c true) s alpha
            (fun c bt h => ih c alpha bt true h)
            (orderMoves s (getAllLegalMoves s)) beta ⊤ hab le_top

/-- With the full window the alpha-beta search computes exactly the
brute-force minimax value. -/
theorem minimax_full_window_eq (ai : AIConfig) (d : Nat) (s : EngineState)
    (isMax : Bool) :
    minimax ai d s ⊥ ⊤ isMax = minimaxSpec ai d s isMax :=
  sandwich_eq_of_full (minimax_sandwich ai d s ⊥ ⊤ isMax bot_lt_top)

/-- The root value `getBestMove` tracks (for zero jitter) equals the
brute-force root value. -/
theorem rootValue_eq (ai : AIConfig) (s : EngineState) :
    rootValueAB ai s = rootValueSpec ai s := by
  unfold rootValueAB rootValueSpec
  simp only [minimax_full_window_eq]

/-- With difficulty `hard` the random stream is never consulted:
the easy-mode branch is off and the jitter term is the literal 0. -/
theorem getBestMove_hard_det (s : EngineState) (rnd1 rnd2 : Nat → ℚ) :
    getBestMove (setDifficulty .hard) s rnd1 =
      getBestMove (setDifficulty .hard) s rnd2 := by
  unfold getBestMove
  rw [if_neg (by simp [setDifficulty]), if_neg (by simp [setDifficulty])]
  dsimp only
  rfl

/-- Model-level search facts: with difficulty `hard` (depth 4, zero
random-move probability, zero jitter) `getBestMove` does not depend on
the random stream, and the alpha-beta search value equals the
brute-force unpruned minimax value of the same depth, both at the root
fold and for every full-window `minimax` call.  These equalities
describe the program exactly on positions whose explored search tree
contains no promotion move; on promotion moves the program stores a
`jsTrue` piece whose evaluation throws/NaN-poisons (see `pieceValues`
and `pstOf`), behaviour the total model cannot express. -/
theorem hard_search_deterministic_and_equals_bruteforce :
    (∀ (s : EngineState) (rnd1 rnd2 : Nat → ℚ),
      getBestMove (setDifficulty .hard) s rnd1 =
        getBestMove (setDifficulty .hard) s rnd2) ∧
    (∀ (ai : AIConfig) (s : EngineState), rootValueAB ai s = rootValueSpec ai s) ∧
    (∀ (ai : AIConfig) (d : Nat) (s : EngineState) (isMax : Bool),
      minimax ai d s ⊥ ⊤ isMax = minimaxSpec ai d s isMax) :=
  ⟨getBestMove_hard_det, rootValue_eq, minimax_full_window_eq⟩

/-- The four structural FEN fields (board, side to move, castling
rights, en-passant target). -/
def fenFields4 (s : EngineState) : List String := (splitWs (toFEN s)).take 4

/-- C1 counterexample: `undoMove` is not an exact left-inverse of
`makeMove` under `toFEN`.  After Ng1-f3 from the start the half-move
clock field stays incremented, so the full FEN differs; and after
Rh1-h3 (from the position with the h-pawn advanced) even the castling
field differs — the cleared king-side right is not restored. -/
theorem make_undo_fen_mismatch :
    (makeMove initialState 7 6 5 5 .q).1.isSome = true ∧
    toFEN (undoMove (makeMove initialState 7 6 5 5 .q).2).2 ≠ toFEN initialState ∧
    (makeMove rookFreeLoaded 7 7 5 7 .q).1.isSome = true ∧
    fenFields4 (undoMove (makeMove rookFreeLoaded 7 7 5 7 .q).2).2 ≠
      fenFields4 rookFreeLoaded := by
  decide

/-- C1 (amended): for every one of the legal moves of the standard
initial position, `makeMove` followed by `undoMove` restores the first
four FEN fields (board, side to move, castling rights, en-passant); the
half-move-clock and full-move fields are outside the round-trip (undo
never restores them), and castling rights cleared by a rook move (and a
FEN-loaded en-passant target) are not restored in general. -/
theorem undo_restores_structural_fen_from_start :
    ((getAllLegalMoves initialState).all fun m =>
      decide (fenFields4 (undoMove (makeMove initialState m.fromRow m.fromCol
          m.move.row m.move.col .q).2).2 = fenFields4 initialState)) = true := by
  decide

/-! ### C2: `loadFromFEN` failure behaviour -/

/-- C2 counterexample: `loadFromFEN` of a 4-field FEN whose board field
has only 2 rows returns `false` but does NOT leave the prior state: the
board has already been cleared in place before the row-count check, so
the state after the failed call differs from the state before it. -/
theorem loadFromFEN_failure_mutates_board :
    (loadFromFEN initialState "8/8 w - -").1 = false ∧
    (loadFromFEN initialState "8/8 w - -").2 ≠ initialState := by
  decide

/-- The number of board squares a FEN row string denotes: each digit
1-8 counts that many, each recognized piece character counts one
(unrecognized characters are rejected before the count can matter). -/
def fenRowSquares : List Char → Int
  | [] => 0
  | c :: rest =>
    (if '1' ≤ c ∧ c ≤ '8' then ((c.toNat : Int) - ('0'.toNat : Int))
     else if (pieceOfChar c).isSome then 1 else 0) + fenRowSquares rest

/-- The board-field malformation classes of the claim: row count other
than 8, an unrecognized character, or a row denoting a square count
other than 8 (which covers both short and over-full rows). -/
def boardFieldMalformed (position : String) : Prop :=
  let rows := splitChars (· == '/') position.data
  rows.length ≠ 8 ∨
  (∃ row ∈ rows, ∃ c ∈ row, ¬('1' ≤ c ∧ c ≤ '8') ∧ pieceOfChar c = none) ∨
  (∃ row ∈ rows, fenRowSquares row ≠ 8)

/-- A row parse can only succeed when every character is recognized and
the denoted square count lands exactly on 8. -/
theorem loadFenRow_true (chars : List Char) :
    ∀ (b : Board) (rowIdx col : Int),
      (loadFenRow b rowIdx chars col).1 = true →
      (∀ c ∈ chars, ('1' ≤ c ∧ c ≤ '8') ∨ (pieceOfChar c).isSome = true) ∧
      col + fenRowSquares chars = 8 := by
  induction chars with
  | nil =>
    intro b i col h
    simp only [loadFenRow, beq_iff_eq] at h
    refine ⟨fun c hc => absurd hc (List.not_mem_nil c), ?_⟩
    simp [fenRowSquares, h]
  | cons c rest ih =>
    intro b i col h
    by_cases hd : '1' ≤ c ∧ c ≤ '8'
    · rw [loadFenRow, if_pos hd] at h
      obtain ⟨hv, hs⟩ := ih b i _ h
      refine ⟨fun x hx => ?_, ?_⟩
      · rcases List.mem_cons.mp hx with hx | hx
        · exact hx ▸ Or.inl hd
        · exact hv x hx
      · rw [fenRowSquares, if_pos hd]
        omega
    · rw [loadFenRow, if_neg hd] at h
      cases hp : pieceOfChar c with
      | none =>
        simp only [hp] at h
        exact absurd h (by decide)
      | some pc =>
        simp only [hp] at h
        by_cases hcol : col ≥ 8
        · rw [if_pos hcol] at h
          simp at h
        · rw [if_neg hcol] at h
          obtain ⟨hv, hs⟩ := ih _ i _ h
          refine ⟨fun x hx => ?_, ?_⟩
          · rcases List.mem_cons.mp hx with hx | hx
            · exact hx ▸ Or.inr (by rw [hp]; rfl)
            · exact hv x hx
          · rw [fenRowSquares, if_neg hd, hp]
            simp only [Option.isSome_some, if_pos]
            omega

/-- If any row is malformed (unknown character or square count other
than 8), the board-parsing loop fails. -/
theorem loadFenRows_false (rows : List (List Char)) :
    ∀ (b : Board) (i : Int),
      (∃ row ∈ rows,
        (∃ c ∈ row, ¬('1' ≤ c ∧ c ≤ '8') ∧ pieceOfChar c = none) ∨
        fenRowSquares row ≠ 8) →
      (loadFenRows b rows i).1 = false := by
  induction rows with
  | nil =>
    intro b i h
    obtain ⟨row, hmem, _⟩ := h
    exact absurd hmem (List.not_mem_nil row)
  | cons row rest ih =>
    intro b i h
    rw [loadFenRows]
    cases hr : loadFenRow b i row 0 with
    | mk ok b2 =>
      cases ok with
      | false => rfl
      | true =>
        obtain ⟨hv, hs⟩ := loadFenRow_true row b i 0 (by rw [hr])
        obtain ⟨r, hmem, hbad⟩ := h
        rcases List.mem_cons.mp hmem with hre | hre
        · subst hre
          rcases hbad with ⟨c, hc, hnd, hnp⟩ | hsq
          · rcases hv c hc with h1 | h1
            · exact absurd h1 hnd
            · rw [hnp] at h1
              simp at h1
          · omega
        · exact ih b2 (i + 1) ⟨r, hre, hbad⟩

/-- On a malformed board field (with at least 4 FEN fields present),
`loadFromFEN` returns `false` and the resulting state is the prior
state with only the board replaced — every other field keeps its prior
value. -/
theorem loadFromFEN_board_malformed (s : EngineState)
    (fen position ac ca ep : String) (rest : List String)
    (hsplit : splitWs fen = position :: ac :: ca :: ep :: rest)
    (hbad : boardFieldMalformed position) :
    ∃ b, loadFromFEN s fen = (false, { s with board := b }) := by
  have hlen : ¬ (splitWs fen).length < 4 := by
    rw [hsplit]
    simp only [List.length_cons]
    omega
  unfold loadFromFEN
  rw [if_neg hlen, hsplit]
  dsimp only
  by_cases h8 : (splitChars (· == '/') position.data).length ≠ 8
  · rw [if_pos h8]
    exact ⟨emptyBoard, rfl⟩
  · rw [if_neg h8]
    have hf : (loadFenRows emptyBoard (splitChars (· == '/') position.data) 0).1 = false := by
      rcases hbad with hlen8 | hunk | hsq
      · exact absurd hlen8 h8
      · obtain ⟨row, hm, c, hc, h1, h2⟩ := hunk
        exact loadFenRows_false _ emptyBoard 0 ⟨row, hm, Or.inl ⟨c, hc, h1, h2⟩⟩
      · obtain ⟨row, hm, hne⟩ := hsq
        exact loadFenRows_false _ emptyBoard 0 ⟨row, hm, Or.inr hne⟩
    cases hres : loadFenRows emptyBoard (splitChars (· == '/') position.data) 0 with
    | mk ok b2 =>
      cases ok with
      | false => exact ⟨b2, rfl⟩
      | true =>
        rw [hres] at hf
        simp at hf

/-- C2 (amended): `loadFromFEN` returns `false` on every malformed
input.  When fewer than 4 fields are present the failure precedes any
mutation and the whole prior state is returned; on every board-field
failure (row count other than 8, an unrecognized character, a row whose
square count is not 8 — including over-full rows) the call still
returns `false` and every field except the board keeps its prior value,
but the board itself has already been cleared/partially rewritten by
the in-place parse. -/
theorem loadFromFEN_failure_behavior :
    (∀ (s : EngineState) (fen : String), (splitWs fen).length < 4 →
      loadFromFEN s fen = (false, s)) ∧
    (∀ (s : EngineState) (fen position ac ca ep : String) (rest : List String),
      splitWs fen = position :: ac :: ca :: ep :: rest →
      boardFieldMalformed position →
      ∃ b, loadFromFEN s fen = (false, { s with board := b })) := by
  refine ⟨?_, loadFromFEN_board_malformed⟩
  intro s fen h
  unfold loadFromFEN
  rw [if_pos h]

/-- Witness for C2: a three-field input for the first part; for the
second part one input from each board-field malformation class
(2 rows; an unrecognized character; a short row; an over-full row). -/
theorem loadFromFEN_failure_behavior_witness :
    ((splitWs "a b c").length < 4 ∧
      loadFromFEN initialState "a b c" = (false, initialState)) ∧
    (∃ b, loadFromFEN initialState "8/8 w - -" =
      (false, { initialState with board := b })) ∧
    (∃ b, loadFromFEN initialState
      "rnbqkbnr/pppppppp/8/8/8/8/PPPPPPPP/RNBQKBNX w KQkq - 0 1" =
      (false, { initialState with board := b })) ∧
    (∃ b, loadFromFEN initialState
      "rnbqkbnr/pppppppp/8/8/8/7/PPPPPPPP/RNBQKBNR w KQkq - 0 1" =
      (false, { initialState with board := b })) ∧
    (∃ b, loadFromFEN initialState "8p/8/8/8/8/8/8/8 w - - 0 1" =
      (false, { initialState with board := b })) :=
  ⟨⟨by decide, loadFromFEN_failure_behavior.1 initialState "a b c" (by decide)⟩,
   loadFromFEN_failure_behavior.2 initialState "8/8 w - -"
     "8/8" "w" "-" "-" [] (by decide)
     (by simp only [boardFieldMalformed]; decide),
   loadFromFEN_failure_behavior.2 initialState
     "rnbqkbnr/pppppppp/8/8/8/8/PPPPPPPP/RNBQKBNX w KQkq - 0 1"
     "rnbqkbnr/pppppppp/8/8/8/8/PPPPPPPP/RNBQKBNX" "w" "KQkq" "-" ["0", "1"]
     (by decide) (by simp only [boardFieldMalformed]; decide),
   loadFromFEN_failure_behavior.2 initialState
     "rnbqkbnr/pppppppp/8/8/8/7/PPPPPPPP/RNBQKBNR w KQkq - 0 1"
     "rnbqkbnr/pppppppp/8/8/8/7/PPPPPPPP/RNBQKBNR" "w" "KQkq" "-" ["0", "1"]
     (by decide) (by simp only [boardFieldMalformed]; decide),
   loadFromFEN_failure_behavior.2 initialState "8p/8/8/8/8/8/8/8 w - - 0 1"
     "8p/8/8/8/8/8/8/8" "w" "-" "-" ["0", "1"] (by decide)
     (by simp only [boardFieldMalformed]; decide)⟩

/-! ### C3: the loaded mate position -/

/-- C3 counterexample: after successfully loading the specification's
checkmate FEN, `gameState` is NOT `checkmate` (loadFromFEN only ever
classifies `check` or `playing`). -/
theorem foolsMate_loaded_not_checkmate :
    (loadFromFEN initialState foolsMateFen).1 = true ∧
    foolsMateLoaded.gameState ≠ GameState.checkmate := by
  decide

/-- C3 (amended): loading the checkmate FEN succeeds, sets `gameState`
to `check` (not `checkmate`), and `getAllLegalMoves()` for the side to
move returns the empty list. -/
theorem foolsMate_loaded_check_no_moves :
    (loadFromFEN initialState foolsMateFen).1 = true ∧
    foolsMateLoaded.gameState = GameState.check ∧
    getAllLegalMoves foolsMateLoaded = [] := by
  decide

end Chess
